import Mathlib

/-!
Verification development for the polysaccharide2 reaction/polymer-building core
(`rdutils/reactions/reactors.py` and `polymerist/polymers/building.py`).

Molecular graphs are embedded shallowly: atoms carry an element number, an atom
map number and a finite map of named integer properties; bonds carry the indices
of their endpoint atoms and a bond-type code.  Fallible Python operations
(dict lookups, list indexing, assertions, the RDKit engine's arity check) are
modelled with `Except`; in-place mutation of reactant graphs is modelled by
explicit state passing.
-/

namespace Poly

/-- An atom of a molecular graph: element (atomic number; 0 is a dummy/port
atom, 1 is hydrogen), the RDKit atom map number, and named integer properties
(`SetIntProp`/`GetIntProp`/`HasProp`). -/
structure Atom where
  element : Nat
  mapNum : Int
  props : List (String × Int)
deriving Repr, DecidableEq

/-- A bond: endpoint atom indices and a bond-type code (RDKit `BondType`). -/
structure Bond where
  beginAtom : Nat
  endAtom : Nat
  bondType : Nat
deriving Repr, DecidableEq

/-- A molecular graph (RDKit `Mol`): atoms and bonds, each identified by its
position in the respective list. -/
structure Mol where
  atoms : List Atom
  bonds : List Bond
deriving Repr, DecidableEq

/-- `GetIntProp` / property lookup on an atom. -/
def Atom.getProp (a : Atom) (k : String) : Option Int :=
  (a.props.find? (fun p => p.1 == k)).map (fun p => p.2)

/-- `HasProp` on an atom. -/
def Atom.hasProp (a : Atom) (k : String) : Bool :=
  a.props.any (fun p => p.1 == k)

/-- Write a key into a property list: replace the first occurrence of the key,
appending the pair if the key is absent (the behaviour of `SetIntProp`). -/
def propSet : List (String × Int) → String → Int → List (String × Int)
  | [], k, v => [(k, v)]
  | p :: ps, k, v => if p.1 == k then (k, v) :: ps else p :: propSet ps k v

/-- `SetIntProp`. -/
def Atom.setProp (a : Atom) (k : String) (v : Int) : Atom :=
  { a with props := propSet a.props k v }

/-- `SetAtomMapNum`. -/
def Atom.setMapNum (a : Atom) (n : Int) : Atom :=
  { a with mapNum := n }

/-- Association-list (Python `dict`) lookup. -/
def dget {α β : Type} [BEq α] (d : List (α × β)) (k : α) : Option β :=
  (d.find? (fun p => p.1 == k)).map (fun p => p.2)

/-- Python-`dict` insertion: overwrite in place if the key exists (preserving
first-insertion order), else append. -/
def dictInsert {α β : Type} [BEq α] : List (α × β) → α → β → List (α × β)
  | [], k, v => [(k, v)]
  | p :: ps, k, v => if p.1 == k then (k, v) :: ps else p :: dictInsert ps k v

/-- Replace the element at an index, leaving the list unchanged when the index
is out of range. -/
def setIdx {α : Type} : List α → Nat → α → List α
  | [], _, _ => []
  | _ :: xs, 0, a => a :: xs
  | x :: xs, n + 1, a => x :: setIdx xs n a

/-- `List.mapM` specialised to `Except`, written by structural recursion to
keep proofs by induction direct. -/
def exceptMapM {ε α β : Type} (f : α → Except ε β) : List α → Except ε (List β)
  | [] => .ok []
  | a :: as =>
    match f a with
    | .error e => .error e
    | .ok b =>
      match exceptMapM f as with
      | .error e => .error e
      | .ok bs => .ok (b :: bs)

/-- `List.foldlM` specialised to `Except`, written by structural recursion. -/
def exceptFoldlM {ε α β : Type} (f : β → α → Except ε β) :
    β → List α → Except ε β
  | b, [] => .ok b
  | b, a :: as =>
    match f b a with
    | .error e => .error e
    | .ok b' => exceptFoldlM f b' as

/-! ## Reaction schema and engine model (`rdutils/reactions/reactors.py`) -/

/-- Errors raised by the reaction-execution layer.  Each constructor stands for
a distinct Python exception site. -/
inductive ReactError
  /-- RDKit `RunReactants` raises when the reactant count differs from the
  schema's reactant-template count. -/
  | arityMismatch
  /-- `KeyError` from `reactant_map_nums[map_num]` in
  `_relabel_reacted_atoms`. -/
  | missingMapNum
  /-- `GetProductTemplate(i)` out of range. -/
  | missingTemplate
  /-- `product_info_maps[i]` out of range. -/
  | missingProductInfo
  /-- `GetBondWithIdx` out of range on the product template. -/
  | missingTemplateBond
  /-- `get_bond_by_map_num_pair` found no bond for the map-number pair. -/
  | bondNotFound
  /-- One of the `_ReactionDegreeChanged` assertions in
  `_sanitize_bond_orders` failed. -/
  | degreeChangeAssert
  /-- One of the arity assertions in `AdditionReactor.__post_init__` failed. -/
  | assertionFailed
  /-- `NoIntermonomerBondsFound`, raised by `polymerized_fragments`. -/
  | noIntermonomerBondsFound
deriving Repr, DecidableEq

/-- Modelled from the spec: per-product derived metadata of an
`AnnotatedReaction` (`RxnProductInfo`, defined in `reactions.py`, not under
`src/`): the bonds whose order changes, and the newly created bonds, each
keyed by product-template bond index with its endpoint map-number pair. -/
structure RxnProductInfo where
  mod_bond_ids_to_map_nums : List (Nat × Int × Int)
  new_bond_ids_to_map_nums : List (Nat × Int × Int)
deriving Repr, DecidableEq

/-- Modelled from the spec: an `AnnotatedReaction` (defined in `reactions.py`,
not under `src/`) pairs reactant and product templates with derived metadata —
the map-number→reactant-index table and per-product bond info.  The abstract
`engine` field stands for RDKit's template-matching core: given the reactant
graphs and a product bound it returns the raw product sets. -/
structure AnnotatedReaction where
  reactantTemplates : List Mol
  productTemplates : List Mol
  map_nums_to_reactant_nums : List (Int × Nat)
  product_info_maps : List RxnProductInfo
  engine : List Mol → Nat → List (List Mol)

/-- `GetNumReactantTemplates`. -/
def AnnotatedReaction.GetNumReactantTemplates (s : AnnotatedReaction) : Nat :=
  s.reactantTemplates.length

/-- `GetNumProductTemplates`. -/
def AnnotatedReaction.GetNumProductTemplates (s : AnnotatedReaction) : Nat :=
  s.productTemplates.length

/-- Modelled from the spec: RDKit's `RunReactants` (the external
transformation engine, §6 of the spec).  It rejects a reactant list whose
length differs from the schema's reactant-template count, and otherwise
produces raw product sets bounded by `maxProducts`. -/
def AnnotatedReaction.RunReactants (s : AnnotatedReaction) (reactants : List Mol)
    (maxProducts : Nat) : Except ReactError (List (List Mol)) :=
  if reactants.length = s.reactantTemplates.length then
    .ok (s.engine reactants maxProducts)
  else
    .error .arityMismatch

/-- Modelled from the spec: `rdprops.atom_ids_with_prop` (not under `src/`) —
the indices of the atoms of a molecule carrying a named property. -/
def atom_ids_with_prop (m : Mol) (k : String) : List Nat :=
  (List.range m.atoms.length).filter (fun i =>
    match m.atoms.get? i with
    | some a => a.hasProp k
    | none => false)

/-- Modelled from the spec: `rdprops.clear_atom_props` (not under `src/`) —
strip all named property tags from every atom of the product. -/
def clear_atom_props (m : Mol) : Mol :=
  { m with atoms := m.atoms.map (fun a => { a with props := [] }) }

/-- Whether a bond's endpoint atoms carry the given map-number pair, in either
order. -/
def bond_matches_pair (m : Mol) (pr : Int × Int) (b : Bond) : Bool :=
  match m.atoms.get? b.beginAtom, m.atoms.get? b.endAtom with
  | some a1, some a2 =>
    (a1.mapNum == pr.1 && a2.mapNum == pr.2) ||
    (a1.mapNum == pr.2 && a2.mapNum == pr.1)
  | _, _ => false

/-- Whether the bond at a given index carries the map-number pair. -/
def bond_matches_pair_at (m : Mol) (pr : Int × Int) (i : Nat) : Bool :=
  match m.bonds.get? i with
  | some b => bond_matches_pair m pr b
  | none => false

/-- First bond of a molecule whose endpoint atoms carry the given unordered
map-number pair, as an index into the bond list. -/
def bond_idx_by_map_num_pair (m : Mol) (pr : Int × Int) : Option Nat :=
  (List.range m.bonds.length).find? (fun i => bond_matches_pair_at m pr i)

/-- Endpoint atom indices of the bond at a given index. -/
def endpointsAt (m : Mol) (j : Nat) : Option (Nat × Nat) :=
  (m.bonds.get? j).map (fun b => (b.beginAtom, b.endAtom))

/-- Equality of map-number pairs up to swapping the endpoints. -/
def unordEq (pr qr : Int × Int) : Prop :=
  pr = qr ∨ pr = (qr.2, qr.1)

/-- Modelled from the spec: `bondwise.get_bond_by_map_num_pair` (not under
`src/`) — locate a product bond via its endpoint map-number pair. -/
def get_bond_by_map_num_pair (m : Mol) (pr : Int × Int) : Option Bond :=
  (bond_idx_by_map_num_pair m pr).bind (fun i => m.bonds.get? i)

/-! ## Reactor -/

namespace Reactor

/-- Name of the property reactant indices are assigned to
(`Reactor._ridx_prop_name`). -/
def ridx_prop_name : String := "reactant_idx"

/-- The body of the `enumerate` loop in `Reactor._label_reactants`: stamp
every atom of reactant `i` with `reactant_idx := i`, continuing with `i + 1`
for the remaining reactants. -/
def label_loop : Nat → List Mol → List Mol
  | _, [] => []
  | i, r :: rs =>
    { r with atoms := r.atoms.map (fun a => a.setProp ridx_prop_name i) } ::
      label_loop (i + 1) rs

/-- `Reactor._label_reactants`: assign the `reactant_idx` property to every
atom of every reactant (an in-place mutation in the source, modelled by
returning the updated reactant list). -/
def label_reactants (reactants : List Mol) : List Mol :=
  label_loop 0 reactants

/-- Per-atom step of `Reactor._relabel_reacted_atoms`: an atom carrying the
`old_mapno` property gets its `reactant_idx` re-assigned from the schema's
map-number→reactant-index table and its map number re-stamped; other atoms are
untouched.  A map number absent from the table is a `KeyError`. -/
def relabel_atom (table : List (Int × Nat)) (a : Atom) : Except ReactError Atom :=
  match a.getProp "old_mapno" with
  | none => .ok a
  | some mn =>
    match dget table mn with
    | none => .error .missingMapNum
    | some ridx => .ok ((a.setProp ridx_prop_name ridx).setMapNum mn)

/-- `Reactor._relabel_reacted_atoms`. -/
def relabel_reacted_atoms (product : Mol) (table : List (Int × Nat)) :
    Except ReactError Mol :=
  match exceptMapM (relabel_atom table) product.atoms with
  | .error e => .error e
  | .ok atoms => .ok { product with atoms := atoms }

/-- One iteration of the loop in `Reactor._sanitize_bond_orders`: look up the
template bond, locate the product bond by its map-number pair, check the
`_ReactionDegreeChanged` assertions and force the product bond's type to the
template's. -/
def sanitize_step (product_template : Mol) (prod : Mol)
    (entry : Nat × Int × Int) : Except ReactError Mol :=
  match product_template.bonds.get? entry.1 with
  | none => .error .missingTemplateBond
  | some target_bond =>
    match bond_idx_by_map_num_pair prod (entry.2.1, entry.2.2) with
    | none => .error .bondNotFound
    | some idx =>
      match prod.bonds.get? idx with
      | none => .error .bondNotFound
      | some product_bond =>
        match prod.atoms.get? product_bond.beginAtom,
              prod.atoms.get? product_bond.endAtom with
        | some a1, some a2 =>
          if a1.hasProp "_ReactionDegreeChanged" &&
             a2.hasProp "_ReactionDegreeChanged" then
            .ok { prod with
              bonds := setIdx prod.bonds idx
                { product_bond with bondType := target_bond.bondType } }
          else
            .error .degreeChangeAssert
        | _, _ => .error .bondNotFound

/-- `Reactor._sanitize_bond_orders`. -/
def sanitize_bond_orders (product : Mol) (product_template : Mol)
    (product_info : RxnProductInfo) : Except ReactError Mol :=
  exceptFoldlM (sanitize_step product_template) product
    product_info.mod_bond_ids_to_map_nums

/-- Post-reaction cleanup of one raw product (the body of the `enumerate`
loop in `Reactor.react`). -/
def cleanup_product (schema : AnnotatedReaction) (clear_props : Bool)
    (entry : Nat × Mol) : Except ReactError Mol :=
  match relabel_reacted_atoms entry.2 schema.map_nums_to_reactant_nums with
  | .error e => .error e
  | .ok product =>
    match schema.productTemplates.get? entry.1 with
    | none => .error .missingTemplate
    | some product_template =>
      match schema.product_info_maps.get? entry.1 with
      | none => .error .missingProductInfo
      | some product_info =>
        match sanitize_bond_orders product product_template product_info with
        | .error e => .error e
        | .ok product =>
          .ok (if clear_props then clear_atom_props product else product)

/-- The part of `Reactor.react` that runs after the in-place labelling of the
reactants: invoke the engine on the (already labelled) reactants, then clean up
each raw product in order. -/
def react_post_label (schema : AnnotatedReaction) (labeled : List Mol)
    (repetitions : Nat) (clear_props : Bool) : Except ReactError (List Mol) :=
  match schema.RunReactants labeled repetitions with
  | .error e => .error e
  | .ok raw_products =>
    exceptMapM (cleanup_product schema clear_props)
      raw_products.flatten.enum

/-- `Reactor.react`: labels the reactants in place (returned as the first
component, modelling the mutation of the caller's graphs) and produces the
cleaned-up product list (or the raised exception). -/
def react (schema : AnnotatedReaction) (reactants : List Mol)
    (repetitions : Nat) (clear_props : Bool) :
    List Mol × Except ReactError (List Mol) :=
  let labeled := label_reactants reactants
  (labeled, react_post_label schema labeled repetitions clear_props)

end Reactor

/-! ## AdditionReactor -/

namespace AdditionReactor

/-- `AdditionReactor.__post_init__`: assert that the schema has exactly two
reactant templates and one product template. -/
def post_init (schema : AnnotatedReaction) : Except ReactError Unit :=
  if schema.GetNumReactantTemplates = 2 then
    if schema.GetNumProductTemplates = 1 then .ok ()
    else .error .assertionFailed
  else .error .assertionFailed

/-- `AdditionReactor.react`: run the base `Reactor.react` and return the first
product when any product was formed, and an absent result otherwise. -/
def react (schema : AnnotatedReaction) (reactants : List Mol)
    (repetitions : Nat) (clear_props : Bool) :
    List Mol × Except ReactError (Option Mol) :=
  match Reactor.react schema reactants repetitions clear_props with
  | (labeled, .error e) => (labeled, .error e)
  | (labeled, .ok products) => (labeled, .ok products.head?)

end AdditionReactor

/-! ## Graph utilities for polymerization -/

/-- Ordered pairs produced by `itertools.combinations(lst, 2)`. -/
def pairCombinations {α : Type} : List α → List (α × α)
  | [] => []
  | x :: xs => xs.map (fun y => (x, y)) ++ pairCombinations xs

/-- The atoms matching `HEAVY_FORMER_LINKER_QUERY`: heavy (non-hydrogen,
non-dummy) atoms carrying the `was_dummy` property, in atom-index order
(the flattening of `GetSubstructMatches` for the one-atom query). -/
def possible_bridgehead_ids (m : Mol) : List Nat :=
  (List.range m.atoms.length).filter (fun i =>
    match m.atoms.get? i with
    | some a => decide (1 < a.element) && a.hasProp "was_dummy"
    | none => false)

/-- Neighbours of an atom, in bond-list order. -/
def nbrs (m : Mol) (i : Nat) : List Nat :=
  m.bonds.foldr (fun b acc =>
    if b.beginAtom = i then b.endAtom :: acc
    else if b.endAtom = i then b.beginAtom :: acc
    else acc) []

/-- One breadth-first relaxation sweep: visit the unvisited neighbours of the
frontier, recording each one's BFS parent. -/
def bfsSweep (m : Mol) : List (Option Nat) × List Nat →
    List (Option Nat) × List Nat
  | (parents, frontier) =>
    frontier.foldl (fun st u =>
      (nbrs m u).foldl (fun st v =>
        match st.1.get? v with
        | some none => (setIdx st.1 v (some u), st.2 ++ [v])
        | _ => st) st) (parents, [])

/-- Iterate a function `n` times. -/
def iterateN {α : Type} (f : α → α) : Nat → α → α
  | 0, a => a
  | n + 1, a => iterateN f n (f a)

/-- BFS parent array from a source atom: `some p` marks a visited atom with
parent `p` (the source is its own parent), `none` marks an unreachable atom. -/
def bfsParents (m : Mol) (src : Nat) : List (Option Nat) :=
  (iterateN (bfsSweep m) m.atoms.length
    (setIdx (List.replicate m.atoms.length none) src (some src), [src])).1

/-- Walk the BFS parent array back from `cur` towards the source, collecting
the atom indices of the path (destination first). -/
def tracePath (parents : List (Option Nat)) : Nat → Nat → List Nat
  | _, 0 => []
  | cur, fuel + 1 =>
    match parents.get? cur with
    | some (some p) =>
      if p = cur then [cur] else cur :: tracePath parents p fuel
    | _ => []

/-- Index of the first bond joining two given atoms (in either direction). -/
def findBondIdx (m : Mol) (u v : Nat) : Option Nat :=
  m.bonds.findIdx? (fun b =>
    (b.beginAtom == u && b.endAtom == v) || (b.beginAtom == v && b.endAtom == u))

/-- Modelled from the spec: `bondwise.get_shortest_path_bonds` (not under
`src/`) — the indices of the bonds along a shortest path between two atoms
(the molecular-graph engine's shortest-path query, §6 of the spec); empty when
no path exists. -/
def get_shortest_path_bonds (m : Mol) (a b : Nat) : List Nat :=
  let path := tracePath (bfsParents m a) b (m.atoms.length + 1)
  (path.zip path.tail).filterMap (fun uv => findBondIdx m uv.1 uv.2)

/-- Modelled from the spec: `molwise.clear_atom_map_nums` (not under `src/`)
— clear the atom map number of every atom. -/
def clear_atom_map_nums (m : Mol) : Mol :=
  { m with atoms := m.atoms.map (fun a => { a with mapNum := 0 }) }

/-- Modelled from the spec: RDKit's `Chem.FragmentOnBonds` — cut the graph on
the listed bond indices (the surviving bonds keep their relative order). -/
def FragmentOnBonds (m : Mol) (bondIndices : List Nat) : Mol :=
  { m with
    bonds := (m.bonds.enum.filter (fun p => !(bondIndices.contains p.1))).map
      (fun p => p.2) }

/-- Connected-component labels of the atoms: each atom is labelled with the
least atom index of its component, computed by repeated min-propagation along
the bonds. -/
def componentLabels (m : Mol) : List Nat :=
  iterateN (fun ls =>
    m.bonds.foldl (fun ls b =>
      match ls.get? b.beginAtom, ls.get? b.endAtom with
      | some x, some y =>
        let v := min x y
        setIdx (setIdx ls b.beginAtom v) b.endAtom v
      | _, _ => ls) ls) m.atoms.length (List.range m.atoms.length)

/-- Position of the first occurrence of an element in a list. -/
def posOf {α : Type} [BEq α] (l : List α) (a : α) : Option Nat :=
  l.findIdx? (fun x => x == a)

/-- The sub-molecule induced by the atoms at the given (original) indices,
with atoms and bonds re-indexed. -/
def inducedMol (m : Mol) (sel : List Nat) : Mol :=
  { atoms := sel.filterMap (fun i => m.atoms.get? i),
    bonds := m.bonds.filterMap (fun b =>
      match posOf sel b.beginAtom, posOf sel b.endAtom with
      | some i, some j => some { b with beginAtom := i, endAtom := j }
      | _, _ => none) }

/-- Modelled from the spec: RDKit's `Chem.GetMolFrags(·, asMols=True)` — the
connected components of the graph, as separate re-indexed molecules in order
of each component's first atom. -/
def GetMolFrags (m : Mol) : List Mol :=
  let ls := componentLabels m
  (ls.foldl (fun acc l => if acc.contains l then acc else acc ++ [l]) []).map
    (fun l => inducedMol m
      ((List.range m.atoms.length).filter (fun i => ls.get? i == some l)))

/-! ## Intermonomer bond identification and the polymerization reactor -/

namespace ReseparateRGroups

/-- `ReseparateRGroups.locate_intermonomer_bonds`: for each newly formed bond
of the reaction schema, yield it once for every bridgehead pair whose shortest
path contains it. -/
def locate_intermonomer_bonds (product : Mol) (product_info : RxnProductInfo) :
    List Nat :=
  let possible_bridgeheads := possible_bridgehead_ids product
  (product_info.new_bond_ids_to_map_nums.map (fun e => e.1)).flatMap
    (fun new_bond_id =>
      (pairCombinations possible_bridgeheads).filterMap (fun pr =>
        if new_bond_id ∈ get_shortest_path_bonds product pr.1 pr.2 then
          some new_bond_id
        else none))

end ReseparateRGroups

namespace PolymerizationReactor

/-- `PolymerizationReactor._inter_monomer_bond_candidates` (the text of
`ReseparateRGroups.locate_intermonomer_bonds` restricted to the reactor's own
`product_info`). -/
def inter_monomer_bond_candidates (product_info : RxnProductInfo)
    (product : Mol) : List Nat :=
  let possible_bridgeheads := possible_bridgehead_ids product
  (product_info.new_bond_ids_to_map_nums.map (fun e => e.1)).flatMap
    (fun new_bond_id =>
      (pairCombinations possible_bridgeheads).filterMap (fun pr =>
        if new_bond_id ∈ get_shortest_path_bonds product pr.1 pr.2 then
          some new_bond_id
        else none))

/-- `AdditionReactor.product_info`: the info record of the single product
template (`product_info_maps[0]`, an `IndexError` when absent). -/
def product_info (schema : AnnotatedReaction) : Except ReactError RxnProductInfo :=
  match schema.product_info_maps.get? 0 with
  | none => .error .missingProductInfo
  | some info => .ok info

/-- `PolymerizationReactor.polymerized_fragments`: take the first candidate
bond as THE intermonomer bond (raising `NoIntermonomerBondsFound` when there is
none) and cut an unmapped copy of the product on exactly that bond, optionally
separating the fragments. -/
def polymerized_fragments (schema : AnnotatedReaction) (product : Mol)
    (separate : Bool) : Except ReactError (List Mol ⊕ Mol) :=
  match product_info schema with
  | .error e => .error e
  | .ok info =>
    match inter_monomer_bond_candidates info product with
    | [] => .error .noIntermonomerBondsFound
    | inter_monomer_bond_idx :: _ =>
      let fragments :=
        FragmentOnBonds (clear_atom_map_nums product) [inter_monomer_bond_idx]
      if separate then .ok (.inl (GetMolFrags fragments))
      else .ok (.inr fragments)

/-- `PolymerizationReactor.propagate`, with explicit fuel standing for the
unbounded `while True` loop (the generator is lazy; the fuel bounds how far the
sequence is materialised).  `sanitizer` is the external
`Chem.SanitizeMol(·, SANITIZE_AS_KEKULE)` collaborator (§6 of the spec).
Each step reacts the current pair; an absent product ends the sequence
normally, otherwise the sanitized dimer is re-fragmented and the
(dimer, fragments) pair is yielded. -/
def propagate (schema : AnnotatedReaction) (sanitizer : Mol → Mol) :
    Nat → List Mol → Except ReactError (List (Mol × List Mol))
  | 0, _ => .ok []
  | fuel + 1, reactants =>
    match (AdditionReactor.react schema reactants 1 false).2 with
    | .error e => .error e
    | .ok none => .ok []
    | .ok (some dimer0) =>
      let dimer := sanitizer dimer0
      match polymerized_fragments schema dimer true with
      | .error e => .error e
      | .ok (.inr _) => .ok []
      | .ok (.inl frags) =>
        match propagate schema sanitizer fuel frags with
        | .error e => .error e
        | .ok rest => .ok ((dimer, frags) :: rest)

end PolymerizationReactor

/-! ## Linear chain assembly (`polymerist/polymers/building.py`) -/

namespace building

/-- Errors raised by `build_linear_polymer`.  Each constructor stands for a
distinct Python exception site. -/
inductive BuildError
  /-- The `ValueError` for a middle region the sequence cannot tile. -/
  | valueError
  /-- `InsufficientChainLengthError`: no room for a full sequence repeat. -/
  | insufficientChainLength
  /-- Python `ZeroDivisionError` from `% block_size` with an empty sequence. -/
  | zeroDivisionError
  /-- `KeyError` from a dict lookup (e.g. `term_iters[resname]`). -/
  | keyError
  /-- `StopIteration` from `next(...)` on an exhausted terminal iterator. -/
  | stopIteration
  /-- `IndexError` from `linker_ids.pop()` on an empty list. -/
  | indexError
  /-- `MorphologyError`: selected monomers are not linear-compliant. -/
  | morphologyError
deriving Repr, DecidableEq

/-- Head/tail orientation tag of a terminal monomer. -/
inductive Orient
  | head
  | tail
deriving Repr, DecidableEq

/-- Modelled from the spec: a `MonomerGroup` (`monomers/repr.py`, not under
`src/`) — a named collection of monomer definitions, each holding one or more
candidate fragments, plus an optionally pre-declared terminal-orientation
mapping. -/
structure MonomerGroup where
  monomers : List (String × List Mol)
  term_orient : List (String × Orient)
deriving Repr, DecidableEq

/-- Modelled from the spec: `portlib.get_linker_ids` (not under `src/`) — the
indices of the designated linker/port atoms of a fragment (dummy atoms,
element 0). -/
def get_linker_ids (m : Mol) : List Nat :=
  (List.range m.atoms.length).filter (fun i =>
    match m.atoms.get? i with
    | some a => a.element == 0
    | none => false)

/-- Modelled from the spec: a monomer definition is terminal when its
fragments carry exactly one linker atom (terminal/middle classification of
§3). -/
def is_term_frags (frags : List Mol) : Bool :=
  frags.all (fun f => (get_linker_ids f).length == 1)

/-- Modelled from the spec: `MonomerGroup.rdmols(term_only=...)` — the
monomer definitions restricted to the requested terminal/middle class. -/
def rdmols (mg : MonomerGroup) (term_only : Bool) : List (String × List Mol) :=
  mg.monomers.filter (fun p => is_term_frags p.2 == term_only)

/-- Modelled from the spec: `MonomerGroup.iter_rdmols(term_only=...)` —
iterate the (resname, fragment) pairs of the requested class, per definition
and per fragment, in declaration order. -/
def iter_rdmols (mg : MonomerGroup) (term_only : Bool) : List (String × Mol) :=
  (rdmols mg term_only).flatMap (fun p => p.2.map (fun m => (p.1, m)))

/-- Modelled from the spec: `MonomerGroup.has_valid_linear_term_orient` (not
under `src/`) — the declared orientation mapping is usable when it is nonempty
and names only terminal monomers of the group. -/
def has_valid_linear_term_orient (mg : MonomerGroup) : Bool :=
  !mg.term_orient.isEmpty &&
    mg.term_orient.all (fun p => (rdmols mg true).any (fun q => q.1 == p.1))

/-- Step 0 of `build_linear_polymer`: use the declared terminal orientation
when valid, otherwise auto-generate one by assigning the first two terminal
fragments encountered to head and tail (as a Python dict, so a repeated
resname collapses). -/
def determine_term_orient (mg : MonomerGroup) : List (String × Orient) :=
  if has_valid_linear_term_orient mg then mg.term_orient
  else
    ((iter_rdmols mg true).zip [Orient.head, Orient.tail]).foldl
      (fun d p => dictInsert d p.1.1 p.2) []

/-- Modelled from the spec: `substrings.unique_string(·, preserve_order=True)`
(not under `src/`) — the distinct characters of the sequence in
first-occurrence order. -/
def unique_string (s : String) : List Char :=
  s.data.foldl (fun acc c => if acc.contains c then acc else acc ++ [c]) []

/-- Modelled from the spec: `substitution.hydrogenate_rdmol_ports` (not under
`src/`) — replace every linker/port (dummy) atom by a hydrogen. -/
def hydrogenate_rdmol_ports (m : Mol) : Mol :=
  { m with atoms := m.atoms.map (fun a =>
      if a.element == 0 then { a with element := 1 } else a) }

/-- `mbmol_from_mono_rdmol`: record the linker indices of the fragment and
produce the port-free compound handed to the chain builder (the external
mbuild conversion is modelled by the hydrogenated graph itself). -/
def mbmol_from_mono_rdmol (rdmol : Mol) : Mol × List Nat :=
  (hydrogenate_rdmol_ports rdmol, get_linker_ids rdmol)

/-- The chain structure assembled by `build_linear_polymer` (the external
mbuild `Polymer` collaborator, modelled by what the core registers on it):
the middle monomers added with their linker indices, the end groups with their
single linker index and orientation, and the build parameters. -/
structure MBPolymer where
  middles : List (String × Mol × List Nat)
  end_groups : List (String × Mol × Nat × Orient)
  n_built_reps : Int
  built_sequence : String
  add_hydrogens : Bool
  energy_minimized : Bool
deriving Repr, DecidableEq

/-- The middle-monomer registration loop (§2A of `build_linear_polymer`):
walk the zip of the middle-monomer iteration with the distinct sequence
characters, adding each fragment to the chain and recording its definition in
`monomers_selected`. -/
def register_middles_loop (lib : List (String × List Mol)) :
    List ((String × Mol) × Char) → List (String × List Mol) →
    Except BuildError (List (String × Mol × List Nat) × List (String × List Mol))
  | [], selected => .ok ([], selected)
  | ((resname, middle_monomer), _) :: rest, selected =>
    match dget lib resname with
    | none => .error .keyError
    | some frags =>
      match register_middles_loop lib rest (dictInsert selected resname frags) with
      | .error e => .error e
      | .ok (ms, selected') =>
        .ok ((resname, mbmol_from_mono_rdmol middle_monomer) :: ms, selected')

/-- §2A of `build_linear_polymer`. -/
def register_middles (mg : MonomerGroup) (sequence : String) :
    Except BuildError (List (String × Mol × List Nat) × List (String × List Mol)) :=
  register_middles_loop mg.monomers
    ((iter_rdmols mg false).zip (unique_string sequence)) []

/-- The terminal-monomer registration loop (§2B of `build_linear_polymer`):
for each required orientation, advance the per-resname terminal iterator
(`KeyError` when the resname has no terminal entry, `StopIteration` when its
fragments are exhausted), register the fragment as an end group via its last
linker id (`linker_ids.pop()`), and record its definition. -/
def register_terms_loop (lib : List (String × List Mol)) :
    List (String × Orient) → List (String × List Mol) →
    List (String × List Mol) →
    Except BuildError
      (List (String × Mol × Nat × Orient) × List (String × List Mol))
  | [], _, selected => .ok ([], selected)
  | (resname, head_or_tail) :: rest, term_iters, selected =>
    match dget term_iters resname with
    | none => .error .keyError
    | some [] => .error .stopIteration
    | some (term_monomer :: more) =>
      let conv := mbmol_from_mono_rdmol term_monomer
      match conv.2.getLast? with
      | none => .error .indexError
      | some linker_id =>
        match dget lib resname with
        | none => .error .keyError
        | some frags =>
          match register_terms_loop lib rest (dictInsert term_iters resname more)
              (dictInsert selected resname frags) with
          | .error e => .error e
          | .ok (es, selected') =>
            .ok ((resname, conv.1, linker_id, head_or_tail) :: es, selected')

/-- §2B of `build_linear_polymer`. -/
def register_terms (mg : MonomerGroup) (torient : List (String × Orient))
    (selected : List (String × List Mol)) :
    Except BuildError
      (List (String × Mol × Nat × Orient) × List (String × List Mol)) :=
  register_terms_loop mg.monomers torient (rdmols mg true) selected

/-- Modelled from the spec: `MonomerGroup.is_linear` (not under `src/`) —
linear compliance of §3: every monomer's fragments all carry exactly one
linker (terminal) or all carry exactly two (middle). -/
def is_linear (selected : List (String × List Mol)) : Bool :=
  selected.all (fun p =>
    p.2.all (fun f => (get_linker_ids f).length == 1) ||
    p.2.all (fun f => (get_linker_ids f).length == 2))

/-- `build_linear_polymer`: determine the terminal orientation, gate on the
arithmetic feasibility of tiling the middle region with the sequence, register
the middle and terminal monomers, validate linearity of the selected monomers
and assemble the chain.  `allow_partial_sequences` is accepted by the public
signature (its value is never read by the body, as in the source). -/
def build_linear_polymer (mg : MonomerGroup) (n_monomers : Nat)
    (sequence : String) (allow_partial_sequences : Bool) (add_Hs : Bool)
    (energy_minimize : Bool) : Except BuildError MBPolymer :=
  let term_orient := determine_term_orient mg
  let n_mono_term := term_orient.length
  let n_mono_middle : Int := (n_monomers : Int) - (n_mono_term : Int)
  let block_size := sequence.length
  if block_size = 0 then .error .zeroDivisionError
  else if Int.emod n_mono_middle (block_size : Int) ≠ 0 then .error .valueError
  else
    let n_seq_reps := Int.fdiv n_mono_middle (block_size : Int)
    if n_seq_reps < 1 then .error .insufficientChainLength
    else
      match register_middles mg sequence with
      | .error e => .error e
      | .ok (middles, selected) =>
        match register_terms mg term_orient selected with
        | .error e => .error e
        | .ok (end_groups, selected') =>
          if !is_linear selected' then .error .morphologyError
          else
            .ok { middles := middles,
                  end_groups := end_groups,
                  n_built_reps := n_seq_reps,
                  built_sequence := sequence,
                  add_hydrogens := add_Hs,
                  energy_minimized := energy_minimize }

end building

/-! ## Concrete sample molecules, schemas and monomer groups

Small closed instances used to exercise the model at concrete inputs. -/

/-- A middle monomer fragment: dummy–C–dummy (two linker atoms). -/
def mA : Mol := ⟨[⟨0,0,[]⟩, ⟨6,0,[]⟩, ⟨0,0,[]⟩], [⟨0,1,1⟩, ⟨1,2,1⟩]⟩

/-- A second middle monomer fragment: dummy–N–dummy. -/
def mB : Mol := ⟨[⟨0,0,[]⟩, ⟨7,0,[]⟩, ⟨0,0,[]⟩], [⟨0,1,1⟩, ⟨1,2,1⟩]⟩

/-- A terminal monomer fragment: dummy–C (one linker atom). -/
def tC : Mol := ⟨[⟨0,0,[]⟩, ⟨6,0,[]⟩], [⟨0,1,1⟩]⟩

/-- A second terminal monomer fragment: dummy–O. -/
def tO : Mol := ⟨[⟨0,0,[]⟩, ⟨8,0,[]⟩], [⟨0,1,1⟩]⟩

/-- A monomer group with two middle monomers A, B and two terminal monomers
with a declared head/tail orientation. -/
def mg0 : building.MonomerGroup :=
  ⟨[("A", [mA]), ("B", [mB]), ("T1", [tC]), ("T2", [tO])],
   [("T1", .head), ("T2", .tail)]⟩

/-- A one-carbon reactant molecule. -/
def mC1 : Mol := ⟨[⟨6,0,[]⟩], []⟩

/-- A raw engine output whose atom carries `old_mapno = 5`. -/
def rawC1 : Mol := ⟨[⟨6,0,[("old_mapno",5)]⟩], []⟩

/-- A schema whose engine yields `rawC1`; map number 5 belongs to
reactant 0. -/
def schemaC1 : AnnotatedReaction :=
  ⟨[mC1], [mC1], [(5,0)], [⟨[],[]⟩], fun _ _ => [[rawC1]]⟩

/-- A two-carbon reactant with a single bond. -/
def rC2 : Mol := ⟨[⟨6,0,[]⟩, ⟨6,0,[]⟩], [⟨0,1,1⟩]⟩

/-- A raw engine output with map numbers 1, 2 on the bond endpoints, both
flagged `_ReactionDegreeChanged`, and the bond still single. -/
def rawC2 : Mol :=
  ⟨[⟨6,1,[("_ReactionDegreeChanged",1)]⟩, ⟨6,2,[("_ReactionDegreeChanged",1)]⟩],
   [⟨0,1,1⟩]⟩

/-- A product template declaring the bond between map numbers 1 and 2 to be a
double bond (type code 2). -/
def tmplC2 : Mol := ⟨[⟨6,1,[]⟩, ⟨6,2,[]⟩], [⟨0,1,2⟩]⟩

/-- A two-reactant/one-product schema flagging template bond 0 (map pair
(1,2)) as bond-order-changing; its engine yields `rawC2` with the wrong bond
order. -/
def schemaC2 : AnnotatedReaction :=
  ⟨[rC2, rC2], [tmplC2], [], [⟨[(0,(1,2))],[]⟩], fun _ _ => [[rawC2]]⟩

/-- A reacted product: two `was_dummy` bridgehead carbons flanking a middle
carbon. -/
def prodC5 : Mol :=
  ⟨[⟨6,3,[("was_dummy",1)]⟩, ⟨6,4,[]⟩, ⟨6,5,[("was_dummy",1)]⟩],
   [⟨0,1,1⟩, ⟨1,2,1⟩]⟩

/-- Product info marking bond 0 as newly formed. -/
def infoC5 : RxnProductInfo := ⟨[],[(0,(3,4))]⟩

/-- A two-reactant/one-product schema carrying `infoC5` whose engine yields
no products. -/
def schemaC5 : AnnotatedReaction :=
  ⟨[rC2, rC2], [tmplC2], [], [infoC5], fun _ _ => []⟩

/-- The labelled form of the reactant list `[rC2, rC2]`. -/
def labeledC2 : List Mol :=
  [⟨[⟨6,0,[("reactant_idx",0)]⟩, ⟨6,0,[("reactant_idx",0)]⟩], [⟨0,1,1⟩]⟩,
   ⟨[⟨6,0,[("reactant_idx",1)]⟩, ⟨6,0,[("reactant_idx",1)]⟩], [⟨0,1,1⟩]⟩]

/-- The cleaned-up product of running `schemaC2` on `[rC2, rC2]`: the bond has
been forced to the template's double-bond type. -/
def prodC2 : Mol :=
  ⟨[⟨6,1,[("_ReactionDegreeChanged",1)]⟩, ⟨6,2,[("_ReactionDegreeChanged",1)]⟩],
   [⟨0,1,2⟩]⟩

/-- The labelled form of the reactant list `[mC1]`. -/
def labeledC1 : List Mol := [⟨[⟨6,0,[("reactant_idx",0)]⟩], []⟩]

/-- The cleaned-up product of running `schemaC1` on `[mC1]`. -/
def prodC1 : Mol := ⟨[⟨6,5,[("old_mapno",5),("reactant_idx",0)]⟩], []⟩

/-- The single atom of `prodC1`. -/
def aC1 : Atom := ⟨6,5,[("old_mapno",5),("reactant_idx",0)]⟩

end Poly

/-! # Helper lemmas -/

namespace Poly

theorem Atom.getProp_setProp_same (a : Atom) (k : String) (v : Int) :
    (a.setProp k v).getProp k = some v := by
  show (((propSet a.props k v).find? (fun p => p.1 == k)).map (fun p => p.2))
      = some v
  induction a.props with
  | nil => simp [propSet, List.find?]
  | cons p ps ih =>
    by_cases hp : p.1 == k
    · simp [propSet, hp, List.find?]
    · simp only [propSet, hp, if_neg, Bool.not_eq_true]
      simp only [List.find?, hp]
      exact ih

theorem Atom.getProp_setProp_other (a : Atom) (k k' : String) (v : Int)
    (hne : k' ≠ k) : (a.setProp k v).getProp k' = a.getProp k' := by
  have hkk' : (k == k') = false := by
    simp only [beq_eq_false_iff_ne, ne_eq]
    intro hkk
    exact hne hkk.symm
  show (((propSet a.props k v).find? (fun p => p.1 == k')).map (fun p => p.2))
      = a.getProp k'
  unfold Atom.getProp
  induction a.props with
  | nil => simp [propSet, List.find?, hkk']
  | cons p ps ih =>
    by_cases hp : p.1 == k
    · have hk : p.1 = k := by
        exact eq_of_beq hp
      have hpk' : (p.1 == k') = false := by rw [hk]; exact hkk'
      simp [propSet, hp, List.find?, hpk', hkk']
    · simp only [propSet, hp, if_neg, Bool.not_eq_true]
      by_cases hp' : p.1 == k'
      · simp [List.find?, hp']
      · simp only [List.find?, hp']
        exact ih

theorem Atom.getProp_setMapNum (a : Atom) (n : Int) (k : String) :
    (a.setMapNum n).getProp k = a.getProp k := rfl

theorem Atom.mapNum_setProp (a : Atom) (k : String) (v : Int) :
    (a.setProp k v).mapNum = a.mapNum := rfl

theorem dget_dictInsert_same {α β : Type} [BEq α] [LawfulBEq α]
    (d : List (α × β)) (k : α) (v : β) : dget (dictInsert d k v) k = some v := by
  induction d with
  | nil => simp [dictInsert, dget, List.find?]
  | cons p ps ih =>
    by_cases hp : p.1 == k
    · simp [dictInsert, hp, dget, List.find?]
    · simp only [dictInsert, hp, if_neg, Bool.not_eq_true]
      simpa [dget, List.find?, hp] using ih

theorem dget_dictInsert_other {α β : Type} [BEq α] [LawfulBEq α]
    (d : List (α × β)) (k k' : α) (v : β) (hne : k' ≠ k) :
    dget (dictInsert d k v) k' = dget d k' := by
  have hkk' : (k == k') = false := by
    simp only [beq_eq_false_iff_ne, ne_eq]
    intro hkk
    exact hne hkk.symm
  induction d with
  | nil => simp [dictInsert, dget, List.find?, hkk']
  | cons p ps ih =>
    by_cases hp : p.1 == k
    · have hk : p.1 = k := eq_of_beq hp
      have hpk' : (p.1 == k') = false := by rw [hk]; exact hkk'
      simp [dictInsert, hp, dget, List.find?, hpk', hkk']
    · simp only [dictInsert, hp, if_neg, Bool.not_eq_true]
      by_cases hp' : p.1 == k'
      · simp [dget, List.find?, hp']
      · simpa [dget, List.find?, hp'] using ih

theorem length_setIdx {α : Type} (l : List α) (i : Nat) (a : α) :
    (setIdx l i a).length = l.length := by
  induction l generalizing i with
  | nil => rfl
  | cons x xs ih =>
    cases i with
    | zero => rfl
    | succ n => simp [setIdx, ih]

theorem get?_setIdx_self {α : Type} (l : List α) (i : Nat) (a : α)
    (h : i < l.length) : (setIdx l i a).get? i = some a := by
  induction l generalizing i with
  | nil => simp at h
  | cons x xs ih =>
    cases i with
    | zero => rfl
    | succ n =>
      simp only [List.length_cons, Nat.succ_lt_succ_iff] at h
      simpa [setIdx] using ih n h

theorem get?_setIdx_other {α : Type} (l : List α) (i j : Nat) (a : α)
    (h : i ≠ j) : (setIdx l i a).get? j = l.get? j := by
  induction l generalizing i j with
  | nil => rfl
  | cons x xs ih =>
    cases i with
    | zero =>
      cases j with
      | zero => exact absurd rfl h
      | succ m => rfl
    | succ n =>
      cases j with
      | zero => rfl
      | succ m =>
        have : n ≠ m := fun he => h (by rw [he])
        simpa [setIdx] using ih n m this

theorem exceptMapM_ok_mem {ε α β : Type} (f : α → Except ε β) (l : List α)
    (l' : List β) (h : exceptMapM f l = .ok l') :
    ∀ b ∈ l', ∃ a ∈ l, f a = .ok b := by
  induction l generalizing l' with
  | nil =>
    simp only [exceptMapM] at h
    cases h
    intro b hb
    simp at hb
  | cons a as ih =>
    simp only [exceptMapM] at h
    cases hfa : f a with
    | error e => rw [hfa] at h; cases h
    | ok b0 =>
      rw [hfa] at h
      cases hrest : exceptMapM f as with
      | error e => rw [hrest] at h; cases h
      | ok bs =>
        rw [hrest] at h
        cases h
        intro b hb
        cases hb with
        | head => exact ⟨a, List.mem_cons_self a as, hfa⟩
        | tail _ hbs =>
          obtain ⟨a', ha', hfa'⟩ := ih bs hrest b hbs
          exact ⟨a', List.mem_cons_of_mem a ha', hfa'⟩

theorem exceptMapM_ok_get? {ε α β : Type} (f : α → Except ε β) (l : List α)
    (l' : List β) (h : exceptMapM f l = .ok l') :
    ∀ i b, l'.get? i = some b → ∃ a, l.get? i = some a ∧ f a = .ok b := by
  induction l generalizing l' with
  | nil =>
    simp only [exceptMapM] at h
    cases h
    intro i b hb
    simp at hb
  | cons a as ih =>
    simp only [exceptMapM] at h
    cases hfa : f a with
    | error e => rw [hfa] at h; cases h
    | ok b0 =>
      rw [hfa] at h
      cases hrest : exceptMapM f as with
      | error e => rw [hrest] at h; cases h
      | ok bs =>
        rw [hrest] at h
        cases h
        intro i b hb
        cases i with
        | zero =>
          simp only [List.get?_cons_zero, Option.some.injEq] at hb
          exact ⟨a, rfl, by rw [hfa, hb]⟩
        | succ n =>
          simp only [List.get?_cons_succ] at hb
          exact ih bs hrest n b hb

end Poly

/-! # Auxiliary lemmas about the reactor -/

namespace Poly

theorem label_loop_length (i : Nat) (rs : List Mol) :
    (Reactor.label_loop i rs).length = rs.length := by
  induction rs generalizing i with
  | nil => rfl
  | cons r rs ih => simp [Reactor.label_loop, ih]

theorem label_reactants_length (rs : List Mol) :
    (Reactor.label_reactants rs).length = rs.length :=
  label_loop_length 0 rs

theorem label_loop_get? (rs : List Mol) :
    ∀ i k, (Reactor.label_loop i rs).get? k =
      (rs.get? k).map (fun r =>
        { r with atoms := r.atoms.map (fun a =>
            a.setProp Reactor.ridx_prop_name ((i + k : Nat) : Int)) }) := by
  induction rs with
  | nil => intro i k; rfl
  | cons r rs ih =>
    intro i k
    cases k with
    | zero => simp [Reactor.label_loop]
    | succ n =>
      simp only [Reactor.label_loop, List.get?_cons_succ]
      rw [ih (i + 1) n]
      have : i + 1 + n = i + (n + 1) := by omega
      rw [this]

end Poly

/-! # Claims -/

namespace Poly

/-- C10: `build_linear_polymer` accepts `allow_partial_sequences` in its
public signature but never reads it, so two calls differing only in that
argument behave identically. -/
theorem claim_C10_allow_partial_sequences_unread :
    ∀ (mg : building.MonomerGroup) (n_monomers : Nat) (sequence : String)
      (b1 b2 add_Hs energy_minimize : Bool),
      building.build_linear_polymer mg n_monomers sequence b1 add_Hs
          energy_minimize =
        building.build_linear_polymer mg n_monomers sequence b2 add_Hs
          energy_minimize :=
  fun _ _ _ _ _ _ _ => rfl

/-- C8: `ReseparateRGroups.locate_intermonomer_bonds` yields exactly the
newly formed bonds (per the schema's new-bond table) that lie on the shortest
path between some pair of bridgehead atoms, and no other bond indices. -/
theorem claim_C8_reseparate_rgroups_locates_bridgehead_path_bonds :
    ∀ (product : Mol) (product_info : RxnProductInfo) (b : Nat),
      b ∈ ReseparateRGroups.locate_intermonomer_bonds product product_info ↔
        (b ∈ product_info.new_bond_ids_to_map_nums.map (fun e => e.1) ∧
         ∃ pr ∈ pairCombinations (possible_bridgehead_ids product),
           b ∈ get_shortest_path_bonds product pr.1 pr.2) := by
  intro product info b
  simp only [ReseparateRGroups.locate_intermonomer_bonds]
  constructor
  · intro h
    rw [List.mem_flatMap] at h
    obtain ⟨nb, hnb, hmem⟩ := h
    rw [List.mem_filterMap] at hmem
    obtain ⟨pr, hpr, hif⟩ := hmem
    by_cases hc : nb ∈ get_shortest_path_bonds product pr.1 pr.2
    · rw [if_pos hc] at hif
      cases hif
      exact ⟨hnb, pr, hpr, hc⟩
    · rw [if_neg hc] at hif
      cases hif
  · rintro ⟨hb, pr, hpr, hc⟩
    rw [List.mem_flatMap]
    exact ⟨b, hb, List.mem_filterMap.mpr ⟨pr, hpr, by rw [if_pos hc]⟩⟩

/-- C6: constructing an `AdditionReactor` succeeds exactly when the schema has
two reactant templates and one product template (else the constructor
assertion fails fast), and `AdditionReactor.react` on a valid schema fails
fast when given a number of reactants different from the fixed arity 2. -/
theorem claim_C6_addition_reactor_arity_checks :
    (∀ schema : AnnotatedReaction,
      AdditionReactor.post_init schema = .ok () ↔
        (schema.GetNumReactantTemplates = 2 ∧
         schema.GetNumProductTemplates = 1)) ∧
    (∀ (schema : AnnotatedReaction) (reactants : List Mol) (reps : Nat)
       (cp : Bool),
      schema.GetNumReactantTemplates = 2 →
      reactants.length ≠ 2 →
      (AdditionReactor.react schema reactants reps cp).2 =
        .error .arityMismatch) := by
  constructor
  · intro schema
    unfold AdditionReactor.post_init
    constructor
    · intro h
      by_cases h2 : schema.GetNumReactantTemplates = 2
      · rw [if_pos h2] at h
        by_cases h1 : schema.GetNumProductTemplates = 1
        · exact ⟨h2, h1⟩
        · rw [if_neg h1] at h
          cases h
      · rw [if_neg h2] at h
        cases h
    · rintro ⟨h2, h1⟩
      rw [if_pos h2, if_pos h1]
  · intro schema reactants reps cp h2 hne
    have hcond :
        ¬((Reactor.label_reactants reactants).length =
          schema.reactantTemplates.length) := by
      rw [label_reactants_length]
      unfold AnnotatedReaction.GetNumReactantTemplates at h2
      rw [h2]
      exact hne
    have hpost : Reactor.react_post_label schema
        (Reactor.label_reactants reactants) reps cp = .error .arityMismatch := by
      unfold Reactor.react_post_label AnnotatedReaction.RunReactants
      rw [if_neg hcond]
    have hreact : Reactor.react schema reactants reps cp =
        (Reactor.label_reactants reactants, .error .arityMismatch) := by
      show (Reactor.label_reactants reactants,
        Reactor.react_post_label schema (Reactor.label_reactants reactants)
          reps cp) = _
      rw [hpost]
    unfold AdditionReactor.react
    rw [hreact]

/-- C6 witness: `schemaC2` (two reactant templates, one product template)
constructs successfully, and reacting it on a single reactant fails fast with
the arity error. -/
theorem claim_C6_addition_reactor_arity_checks_witness :
    (AdditionReactor.post_init schemaC2 = .ok ()) ∧
    ((AdditionReactor.react schemaC2 [rC2] 1 false).2 =
      .error .arityMismatch) :=
  ⟨(claim_C6_addition_reactor_arity_checks.1 schemaC2).mpr ⟨rfl, rfl⟩,
   claim_C6_addition_reactor_arity_checks.2 schemaC2 [rC2] 1 false rfl
     (by decide)⟩

/-- C4: when the engine yields zero products, `AdditionReactor.react` returns
a successful absent result (no list, no exception); when products are formed
it returns the single first product; and `propagate` ends its sequence as a
normal (non-error) termination at a step whose reaction yields no product. -/
theorem claim_C4_no_reaction_is_absent_result_and_ends_propagation :
    (∀ (schema : AnnotatedReaction) (reactants : List Mol) (reps : Nat)
       (cp : Bool),
      reactants.length = schema.GetNumReactantTemplates →
      (schema.engine (Reactor.label_reactants reactants) reps).flatten = [] →
      AdditionReactor.react schema reactants reps cp =
        (Reactor.label_reactants reactants, .ok none)) ∧
    (∀ (schema : AnnotatedReaction) (reactants : List Mol) (reps : Nat)
       (cp : Bool) (st : List Mol) (p : Mol) (ps : List Mol),
      Reactor.react schema reactants reps cp = (st, .ok (p :: ps)) →
      AdditionReactor.react schema reactants reps cp = (st, .ok (some p))) ∧
    (∀ (schema : AnnotatedReaction) (sanitizer : Mol → Mol) (fuel : Nat)
       (reactants : List Mol),
      (AdditionReactor.react schema reactants 1 false).2 = .ok none →
      PolymerizationReactor.propagate schema sanitizer (fuel + 1) reactants =
        .ok []) := by
  refine ⟨?_, ?_, ?_⟩
  · intro schema reactants reps cp hlen hempty
    have hcond : (Reactor.label_reactants reactants).length =
        schema.reactantTemplates.length := by
      rw [label_reactants_length]
      exact hlen
    have hpost : Reactor.react_post_label schema
        (Reactor.label_reactants reactants) reps cp = .ok [] := by
      unfold Reactor.react_post_label AnnotatedReaction.RunReactants
      rw [if_pos hcond]
      show exceptMapM (Reactor.cleanup_product schema cp)
        ((schema.engine (Reactor.label_reactants reactants) reps).flatten).enum
          = .ok []
      rw [hempty]
      rfl
    have hreact : Reactor.react schema reactants reps cp =
        (Reactor.label_reactants reactants, .ok []) := by
      show (Reactor.label_reactants reactants,
        Reactor.react_post_label schema (Reactor.label_reactants reactants)
          reps cp) = _
      rw [hpost]
    unfold AdditionReactor.react
    rw [hreact]
    rfl
  · intro schema reactants reps cp st p ps h
    unfold AdditionReactor.react
    rw [h]
    rfl
  · intro schema sanitizer fuel reactants h
    rw [PolymerizationReactor.propagate]
    rw [h]

/-- C4 witness: `schemaC5`'s engine yields no products, so the addition
reaction returns an absent result and propagation terminates immediately;
`schemaC1`'s engine yields one product, which is returned as-is. -/
theorem claim_C4_no_reaction_is_absent_result_and_ends_propagation_witness :
    (AdditionReactor.react schemaC5 [rC2, rC2] 1 false =
      (Reactor.label_reactants [rC2, rC2], .ok none)) ∧
    (AdditionReactor.react schemaC1 [mC1] 1 false =
      (labeledC1, .ok (some prodC1))) ∧
    (PolymerizationReactor.propagate schemaC5 id 1 [rC2, rC2] = .ok []) :=
  ⟨claim_C4_no_reaction_is_absent_result_and_ends_propagation.1 schemaC5
      [rC2, rC2] 1 false rfl rfl,
   claim_C4_no_reaction_is_absent_result_and_ends_propagation.2.1 schemaC1
      [mC1] 1 false labeledC1 prodC1 [] rfl,
   claim_C4_no_reaction_is_absent_result_and_ends_propagation.2.2 schemaC5 id
      0 [rC2, rC2] rfl⟩

end Poly

namespace Poly

/-- C5: `polymerized_fragments` raises the distinguishable
`NoIntermonomerBondsFound` error exactly when no intermonomer-bond candidate
exists; otherwise it takes the first candidate in candidate-iteration order,
cuts exactly that one bond on a copy of the product whose atom-map numbers
have been cleared, and returns the resulting fragments. -/
theorem claim_C5_polymerized_fragments_takes_first_candidate :
    ∀ (schema : AnnotatedReaction) (info : RxnProductInfo) (product : Mol),
      schema.product_info_maps.get? 0 = some info →
      ((PolymerizationReactor.polymerized_fragments schema product true =
          .error .noIntermonomerBondsFound) ↔
        PolymerizationReactor.inter_monomer_bond_candidates info product =
          []) ∧
      (∀ (b : Nat) (rest : List Nat),
        PolymerizationReactor.inter_monomer_bond_candidates info product =
          b :: rest →
        ∃ cut : Mol,
          PolymerizationReactor.polymerized_fragments schema product true =
            .ok (.inl (GetMolFrags cut)) ∧
          cut.bonds = (product.bonds.enum.filter
            (fun p => !([b].contains p.1))).map (fun p => p.2) ∧
          cut.atoms.length = product.atoms.length ∧
          ∀ a ∈ cut.atoms, a.mapNum = 0) := by
  intro schema info product h
  have hinfo : PolymerizationReactor.product_info schema = .ok info := by
    unfold PolymerizationReactor.product_info
    rw [h]
  have hpf_nil :
      PolymerizationReactor.inter_monomer_bond_candidates info product = [] →
      PolymerizationReactor.polymerized_fragments schema product true =
        .error .noIntermonomerBondsFound := by
    intro hc
    unfold PolymerizationReactor.polymerized_fragments
    rw [hinfo]
    show (match PolymerizationReactor.inter_monomer_bond_candidates info
        product with
      | [] => Except.error ReactError.noIntermonomerBondsFound
      | inter_monomer_bond_idx :: _ =>
        let fragments := FragmentOnBonds (clear_atom_map_nums product)
          [inter_monomer_bond_idx]
        if true then Except.ok (Sum.inl (GetMolFrags fragments))
        else Except.ok (Sum.inr fragments)) = _
    rw [hc]
  have hpf_cons : ∀ (b : Nat) (rest : List Nat),
      PolymerizationReactor.inter_monomer_bond_candidates info product =
        b :: rest →
      PolymerizationReactor.polymerized_fragments schema product true =
        .ok (.inl (GetMolFrags
          (FragmentOnBonds (clear_atom_map_nums product) [b]))) := by
    intro b rest hc
    unfold PolymerizationReactor.polymerized_fragments
    rw [hinfo]
    show (match PolymerizationReactor.inter_monomer_bond_candidates info
        product with
      | [] => Except.error ReactError.noIntermonomerBondsFound
      | inter_monomer_bond_idx :: _ =>
        let fragments := FragmentOnBonds (clear_atom_map_nums product)
          [inter_monomer_bond_idx]
        if true then Except.ok (Sum.inl (GetMolFrags fragments))
        else Except.ok (Sum.inr fragments)) = _
    rw [hc]
    rfl
  constructor
  · constructor
    · intro hpf
      cases hc : PolymerizationReactor.inter_monomer_bond_candidates info
          product with
      | nil => rfl
      | cons b rest =>
        rw [hpf_cons b rest hc] at hpf
        exact Except.noConfusion hpf
    · exact hpf_nil
  · intro b rest hc
    refine ⟨FragmentOnBonds (clear_atom_map_nums product) [b],
      hpf_cons b rest hc, rfl, ?_, ?_⟩
    · show ((clear_atom_map_nums product).atoms).length = product.atoms.length
      unfold clear_atom_map_nums
      exact List.length_map product.atoms _
    · intro a ha
      have ha' : a ∈ (clear_atom_map_nums product).atoms := ha
      unfold clear_atom_map_nums at ha'
      rw [List.mem_map] at ha'
      obtain ⟨a0, _, rfl⟩ := ha'
      rfl

/-- C5 witness: on `prodC5` the candidate list is `[0]`, so the fragmentation
cuts exactly bond 0 of the unmapped copy. -/
theorem claim_C5_polymerized_fragments_takes_first_candidate_witness :
    ((PolymerizationReactor.polymerized_fragments schemaC5 prodC5 true =
        .error .noIntermonomerBondsFound) ↔
      PolymerizationReactor.inter_monomer_bond_candidates infoC5 prodC5 =
        []) ∧
    (∃ cut : Mol,
      PolymerizationReactor.polymerized_fragments schemaC5 prodC5 true =
        .ok (.inl (GetMolFrags cut)) ∧
      cut.bonds = (prodC5.bonds.enum.filter
        (fun p => !([0].contains p.1))).map (fun p => p.2) ∧
      cut.atoms.length = prodC5.atoms.length ∧
      ∀ a ∈ cut.atoms, a.mapNum = 0) :=
  ⟨(claim_C5_polymerized_fragments_takes_first_candidate schemaC5 infoC5
      prodC5 rfl).1,
   (claim_C5_polymerized_fragments_takes_first_candidate schemaC5 infoC5
      prodC5 rfl).2 0 [] (by decide)⟩

/-- C9: `Reactor.react` mutates every input reactant graph in place by
stamping every atom with the `reactant_idx` property equal to the reactant's
0-based position, and the transformation engine is invoked on the
already-labelled reactants. -/
theorem claim_C9_react_stamps_reactant_idx_before_engine :
    ∀ (schema : AnnotatedReaction) (reactants : List Mol) (reps : Nat)
      (cp : Bool),
      ((Reactor.react schema reactants reps cp).1 =
        Reactor.label_reactants reactants) ∧
      ((Reactor.react schema reactants reps cp).2 =
        Reactor.react_post_label schema (Reactor.label_reactants reactants)
          reps cp) ∧
      (∀ (i : Nat) (r : Mol), reactants.get? i = some r →
        ∃ r', (Reactor.label_reactants reactants).get? i = some r' ∧
          r'.atoms = r.atoms.map (fun a =>
            a.setProp Reactor.ridx_prop_name (i : Int)) ∧
          ∀ a' ∈ r'.atoms,
            a'.getProp Reactor.ridx_prop_name = some (i : Int)) := by
  intro schema reactants reps cp
  refine ⟨rfl, rfl, ?_⟩
  intro i r hr
  have hg : (Reactor.label_reactants reactants).get? i =
      (reactants.get? i).map (fun r =>
        { r with atoms := r.atoms.map (fun a =>
            a.setProp Reactor.ridx_prop_name ((0 + i : Nat) : Int)) }) :=
    label_loop_get? reactants 0 i
  rw [hr] at hg
  have hzero : (0 + i : Nat) = i := Nat.zero_add i
  rw [hzero] at hg
  refine ⟨_, hg, rfl, ?_⟩
  intro a' ha'
  rw [List.mem_map] at ha'
  obtain ⟨a0, _, rfl⟩ := ha'
  exact Atom.getProp_setProp_same a0 Reactor.ridx_prop_name (i : Int)

/-- C9 witness: labelling the single-reactant list `[mC1]` stamps its atom
with reactant index 0. -/
theorem claim_C9_react_stamps_reactant_idx_before_engine_witness :
    ∃ r', (Reactor.label_reactants [mC1]).get? 0 = some r' ∧
      r'.atoms = mC1.atoms.map (fun a =>
        a.setProp Reactor.ridx_prop_name ((0 : Nat) : Int)) ∧
      ∀ a' ∈ r'.atoms,
        a'.getProp Reactor.ridx_prop_name = some ((0 : Nat) : Int) :=
  (claim_C9_react_stamps_reactant_idx_before_engine schemaC1 [mC1] 1
    false).2.2 0 mC1 rfl

end Poly

namespace Poly

/-- C3: with `t` terminal orientations, `m = n_monomers - t` middle slots and
block size `b = sequence.length`, `build_linear_polymer` fails with the
descriptive `ValueError` when `m mod b ≠ 0` and with the insufficient-length
error when the repeat count `m // b` is below 1; in particular `n_monomers=10`
with sequence "AB" and 2 terminals succeeds with repeat count 4, `n_monomers=9`
fails with the tiling error, and `n_monomers=2` (exactly the terminal count)
fails with the insufficient-length error. -/
theorem claim_C3_build_linear_polymer_feasibility_gate :
    (∀ (mg : building.MonomerGroup) (n_monomers : Nat) (sequence : String)
       (aps add_Hs em : Bool),
      sequence.length ≠ 0 →
      Int.emod ((n_monomers : Int) -
          ((building.determine_term_orient mg).length : Int))
        ((sequence.length : Nat) : Int) ≠ 0 →
      building.build_linear_polymer mg n_monomers sequence aps add_Hs em =
        .error .valueError) ∧
    (∀ (mg : building.MonomerGroup) (n_monomers : Nat) (sequence : String)
       (aps add_Hs em : Bool),
      sequence.length ≠ 0 →
      Int.emod ((n_monomers : Int) -
          ((building.determine_term_orient mg).length : Int))
        ((sequence.length : Nat) : Int) = 0 →
      Int.fdiv ((n_monomers : Int) -
          ((building.determine_term_orient mg).length : Int))
        ((sequence.length : Nat) : Int) < 1 →
      building.build_linear_polymer mg n_monomers sequence aps add_Hs em =
        .error .insufficientChainLength) ∧
    (∃ chain, building.build_linear_polymer mg0 10 "AB" true false false =
        .ok chain ∧ chain.n_built_reps = 4) ∧
    (building.build_linear_polymer mg0 9 "AB" true false false =
      .error .valueError) ∧
    (building.build_linear_polymer mg0 2 "AB" true false false =
      .error .insufficientChainLength) := by
  refine ⟨?_, ?_, ?_, ?_, ?_⟩
  · intro mg n_monomers sequence aps add_Hs em hb hmod
    simp only [building.build_linear_polymer]
    rw [if_neg hb, if_pos hmod]
  · intro mg n_monomers sequence aps add_Hs em hb hmod hlt
    have hnmod : ¬(Int.emod ((n_monomers : Int) -
        ((building.determine_term_orient mg).length : Int))
      ((sequence.length : Nat) : Int) ≠ 0) := fun hx => hx hmod
    simp only [building.build_linear_polymer]
    rw [if_neg hb, if_neg hnmod, if_pos hlt]
  · exact ⟨_, rfl, rfl⟩
  · rfl
  · rfl

/-- C3 witness: the two failing branches exercised through the theorem at the
concrete inputs of the claim. -/
theorem claim_C3_build_linear_polymer_feasibility_gate_witness :
    (building.build_linear_polymer mg0 9 "AB" true false false =
      .error .valueError) ∧
    (building.build_linear_polymer mg0 2 "AB" true false false =
      .error .insufficientChainLength) :=
  ⟨claim_C3_build_linear_polymer_feasibility_gate.1 mg0 9 "AB" true false
      false (by decide) (by decide),
   claim_C3_build_linear_polymer_feasibility_gate.2.1 mg0 2 "AB" true false
      false (by decide) (by decide) (by decide)⟩

end Poly

namespace Poly

theorem sanitize_step_atoms (t p : Mol) (e : Nat × Int × Int) (p' : Mol)
    (h : Reactor.sanitize_step t p e = .ok p') : p'.atoms = p.atoms := by
  unfold Reactor.sanitize_step at h
  repeat' split at h
  all_goals first
    | exact Except.noConfusion h
    | (injection h with h; rw [← h])

theorem sanitize_fold_atoms (t : Mol) (es : List (Nat × Int × Int)) :
    ∀ p p', exceptFoldlM (Reactor.sanitize_step t) p es = .ok p' →
      p'.atoms = p.atoms := by
  induction es with
  | nil =>
    intro p p' h
    simp only [exceptFoldlM] at h
    cases h
    rfl
  | cons e es ih =>
    intro p p' h
    simp only [exceptFoldlM] at h
    cases hstep : Reactor.sanitize_step t p e with
    | error err =>
      rw [hstep] at h
      exact Except.noConfusion h
    | ok p1 =>
      rw [hstep] at h
      rw [ih p1 p' h]
      exact sanitize_step_atoms t p e p1 hstep

theorem relabel_ok_atom_prop (table : List (Int × Nat)) (product p1 : Mol)
    (h : Reactor.relabel_reacted_atoms product table = .ok p1) :
    ∀ a ∈ p1.atoms, ∀ mn : Int, a.getProp "old_mapno" = some mn →
      ∃ ridx, dget table mn = some ridx ∧
        a.getProp Reactor.ridx_prop_name = some (ridx : Int) ∧
        a.mapNum = mn := by
  unfold Reactor.relabel_reacted_atoms at h
  cases hm : exceptMapM (Reactor.relabel_atom table) product.atoms with
  | error e =>
    rw [hm] at h
    exact Except.noConfusion h
  | ok atoms =>
    rw [hm] at h
    injection h with h
    intro a ha mn hmn
    rw [← h] at ha
    obtain ⟨a0, _, hf⟩ := exceptMapM_ok_mem _ _ _ hm a ha
    unfold Reactor.relabel_atom at hf
    cases hget : a0.getProp "old_mapno" with
    | none =>
      simp only [hget] at hf
      injection hf with hf
      rw [← hf, hget] at hmn
      exact Option.noConfusion hmn
    | some mn0 =>
      simp only [hget] at hf
      cases hd : dget table mn0 with
      | none =>
        simp only [hd] at hf
        exact Except.noConfusion hf
      | some ridx =>
        simp only [hd] at hf
        injection hf with hf
        have hob : a.getProp "old_mapno" = some mn0 := by
          rw [← hf, Atom.getProp_setMapNum]
          rw [Atom.getProp_setProp_other a0 Reactor.ridx_prop_name "old_mapno"
            (ridx : Int) (by decide)]
          exact hget
        rw [hob] at hmn
        injection hmn with hmn
        refine ⟨ridx, by rw [← hmn]; exact hd, ?_, ?_⟩
        · rw [← hf, Atom.getProp_setMapNum]
          exact Atom.getProp_setProp_same a0 Reactor.ridx_prop_name (ridx : Int)
        · rw [← hf, ← hmn]
          rfl

/-- C1: after a successful `Reactor.react`, every product atom carrying a
template map number (the `old_mapno` marker) has its `reactant_idx` property
equal to the reactant index the schema's map-number→reactant-index table
assigns to that map number — the index of the reactant that contributed the
corresponding template atom — and its atom map number explicitly re-stamped. -/
theorem claim_C1_react_restores_reactant_idx_and_map_num :
    ∀ (schema : AnnotatedReaction) (reactants : List Mol) (reps : Nat)
      (cp : Bool) (st : List Mol) (products : List Mol) (prod : Mol)
      (a : Atom) (mn : Int),
      Reactor.react schema reactants reps cp = (st, .ok products) →
      prod ∈ products →
      a ∈ prod.atoms →
      a.getProp "old_mapno" = some mn →
      ∃ ridx, dget schema.map_nums_to_reactant_nums mn = some ridx ∧
        a.getProp Reactor.ridx_prop_name = some (ridx : Int) ∧
        a.mapNum = mn := by
  intro schema reactants reps cp st products prod a mn hreact hprod ha hmn
  have hpost : Reactor.react_post_label schema
      (Reactor.label_reactants reactants) reps cp = .ok products := by
    have h2 : (Reactor.react schema reactants reps cp).2 = .ok products := by
      rw [hreact]
    exact h2
  unfold Reactor.react_post_label at hpost
  cases hrun : schema.RunReactants (Reactor.label_reactants reactants) reps with
  | error e =>
    rw [hrun] at hpost
    exact Except.noConfusion hpost
  | ok raw =>
    rw [hrun] at hpost
    obtain ⟨entry, _, hclean⟩ := exceptMapM_ok_mem _ _ _ hpost prod hprod
    unfold Reactor.cleanup_product at hclean
    cases hrel : Reactor.relabel_reacted_atoms entry.2
        schema.map_nums_to_reactant_nums with
    | error e =>
      simp only [hrel] at hclean
      exact Except.noConfusion hclean
    | ok p1 =>
      simp only [hrel] at hclean
      cases htm : schema.productTemplates.get? entry.1 with
      | none =>
        simp only [htm] at hclean
        exact Except.noConfusion hclean
      | some tmpl =>
        simp only [htm] at hclean
        cases hpi : schema.product_info_maps.get? entry.1 with
        | none =>
          simp only [hpi] at hclean
          exact Except.noConfusion hclean
        | some info =>
          simp only [hpi] at hclean
          cases hsan : Reactor.sanitize_bond_orders p1 tmpl info with
          | error e =>
            simp only [hsan] at hclean
            exact Except.noConfusion hclean
          | ok p2 =>
            simp only [hsan] at hclean
            injection hclean with hclean
            have hat : p2.atoms = p1.atoms :=
              sanitize_fold_atoms tmpl info.mod_bond_ids_to_map_nums p1 p2 hsan
            cases cp with
            | true =>
              rw [← hclean] at ha
              have ha' : a ∈ (clear_atom_props p2).atoms := by
                simpa using ha
              unfold clear_atom_props at ha'
              rw [List.mem_map] at ha'
              obtain ⟨a0, _, rfl⟩ := ha'
              simp [Atom.getProp] at hmn
            | false =>
              rw [← hclean] at ha
              have ha' : a ∈ p2.atoms := by
                simpa using ha
              rw [hat] at ha'
              exact relabel_ok_atom_prop _ _ _ hrel a ha' mn hmn

/-- C1 witness: running `schemaC1` on `[mC1]` yields a product whose atom
carries `old_mapno = 5`; its reactant index is restored to 0 (per the schema
table) and its map number re-stamped to 5. -/
theorem claim_C1_react_restores_reactant_idx_and_map_num_witness :
    ∃ ridx, dget schemaC1.map_nums_to_reactant_nums 5 = some ridx ∧
      aC1.getProp Reactor.ridx_prop_name = some (ridx : Int) ∧
      aC1.mapNum = 5 :=
  claim_C1_react_restores_reactant_idx_and_map_num schemaC1 [mC1] 1 false
    labeledC1 [prodC1] prodC1 aC1 5 rfl (by decide) (by decide) (by decide)

end Poly

namespace Poly

theorem register_middles_loop_get? (lib : List (String × List Mol)) :
    ∀ (items : List ((String × Mol) × Char)) (sel : List (String × List Mol))
      (ms : List (String × Mol × List Nat)) (sel' : List (String × List Mol)),
      building.register_middles_loop lib items sel = .ok (ms, sel') →
      ∀ k : Nat, ms.get? k = (items.get? k).map (fun it =>
        (it.1.1, building.mbmol_from_mono_rdmol it.1.2)) := by
  intro items
  induction items with
  | nil =>
    intro sel ms sel' h k
    simp only [building.register_middles_loop] at h
    injection h with h
    injection h with h1 h2
    rw [← h1]
    simp
  | cons it rest ih =>
    intro sel ms sel' h k
    obtain ⟨⟨rn, mono⟩, c⟩ := it
    simp only [building.register_middles_loop] at h
    cases hd : dget lib rn with
    | none =>
      simp only [hd] at h
      exact Except.noConfusion h
    | some frags =>
      simp only [hd] at h
      cases hr : building.register_middles_loop lib rest
          (dictInsert sel rn frags) with
      | error e =>
        simp only [hr] at h
        exact Except.noConfusion h
      | ok pr =>
        obtain ⟨ms0, sel0⟩ := pr
        simp only [hr] at h
        injection h with h
        injection h with h1 h2
        rw [← h1]
        cases k with
        | zero => rfl
        | succ j =>
          simp only [List.get?_cons_succ]
          exact ih (dictInsert sel rn frags) ms0 sel0 hr j

theorem register_middles_loop_selected (lib : List (String × List Mol)) :
    ∀ (items : List ((String × Mol) × Char)) (sel : List (String × List Mol))
      (ms : List (String × Mol × List Nat)) (sel' : List (String × List Mol)),
      building.register_middles_loop lib items sel = .ok (ms, sel') →
      ∀ rn : String,
        ((∃ it ∈ items, it.1.1 = rn) → dget sel' rn = dget lib rn) ∧
        ((¬∃ it ∈ items, it.1.1 = rn) → dget sel' rn = dget sel rn) := by
  intro items
  induction items with
  | nil =>
    intro sel ms sel' h rn
    simp only [building.register_middles_loop] at h
    injection h with h
    injection h with h1 h2
    constructor
    · rintro ⟨it, hit, -⟩
      simp at hit
    · intro _
      rw [← h2]
  | cons it rest ih =>
    intro sel ms sel' h rn
    obtain ⟨⟨rn0, mono⟩, c⟩ := it
    simp only [building.register_middles_loop] at h
    cases hd : dget lib rn0 with
    | none =>
      simp only [hd] at h
      exact Except.noConfusion h
    | some frags =>
      simp only [hd] at h
      cases hr : building.register_middles_loop lib rest
          (dictInsert sel rn0 frags) with
      | error e =>
        simp only [hr] at h
        exact Except.noConfusion h
      | ok pr =>
        obtain ⟨ms0, sel0⟩ := pr
        simp only [hr] at h
        injection h with h
        injection h with h1 h2
        rw [← h2]
        have ihr := ih (dictInsert sel rn0 frags) ms0 sel0 hr rn
        constructor
        · rintro ⟨it, hit, hrn⟩
          by_cases hmem : ∃ it ∈ rest, it.1.1 = rn
          · exact ihr.1 hmem
          · have hit0 : it = ((rn0, mono), c) := by
              cases hit with
              | head => rfl
              | tail _ htail => exact absurd ⟨it, htail, hrn⟩ hmem
            have hrneq : rn0 = rn := by
              rw [hit0] at hrn
              exact hrn
            subst hrneq
            rw [ihr.2 hmem, dget_dictInsert_same sel rn0 frags, hd]
        · intro hnone
          have hrest : ¬∃ it ∈ rest, it.1.1 = rn := by
            intro ⟨it, hit, hrn⟩
            exact hnone ⟨it, List.mem_cons_of_mem _ hit, hrn⟩
          have hne : rn ≠ rn0 := by
            intro he
            exact hnone ⟨((rn0, mono), c), List.mem_cons_self _ _, he.symm⟩
          rw [ihr.2 hrest, dget_dictInsert_other sel rn0 rn frags hne]

theorem register_terms_loop_get? (lib : List (String × List Mol)) :
    ∀ (torient : List (String × building.Orient))
      (iters sel : List (String × List Mol))
      (es : List (String × Mol × Nat × building.Orient))
      (sel' : List (String × List Mol)),
      building.register_terms_loop lib torient iters sel = .ok (es, sel') →
      (torient.map Prod.fst).Nodup →
      ∀ (k : Nat) (rn : String) (o : building.Orient),
        torient.get? k = some (rn, o) →
        ∃ mono more li, dget iters rn = some (mono :: more) ∧
          (building.mbmol_from_mono_rdmol mono).2.getLast? = some li ∧
          es.get? k =
            some (rn, (building.mbmol_from_mono_rdmol mono).1, li, o) := by
  intro torient
  induction torient with
  | nil =>
    intro iters sel es sel' h hnd k rn o hk
    simp at hk
  | cons p rest ih =>
    intro iters sel es sel' h hnd k rn o hk
    obtain ⟨rn0, o0⟩ := p
    simp only [building.register_terms_loop] at h
    cases hd : dget iters rn0 with
    | none =>
      simp only [hd] at h
      exact Except.noConfusion h
    | some l =>
      cases l with
      | nil =>
        simp only [hd] at h
        exact Except.noConfusion h
      | cons mono more =>
        simp only [hd] at h
        cases hlast : (building.mbmol_from_mono_rdmol mono).2.getLast? with
        | none =>
          simp only [hlast] at h
          exact Except.noConfusion h
        | some li =>
          simp only [hlast] at h
          cases hlib : dget lib rn0 with
          | none =>
            simp only [hlib] at h
            exact Except.noConfusion h
          | some frags =>
            simp only [hlib] at h
            cases hr : building.register_terms_loop lib rest
                (dictInsert iters rn0 more) (dictInsert sel rn0 frags) with
            | error e =>
              simp only [hr] at h
              exact Except.noConfusion h
            | ok pr =>
              obtain ⟨es0, sel0⟩ := pr
              simp only [hr] at h
              injection h with h
              injection h with h1 h2
              rw [← h1]
              cases k with
              | zero =>
                simp only [List.get?_cons_zero, Option.some.injEq] at hk
                obtain ⟨hrn, ho⟩ := Prod.mk.injEq .. ▸ hk
                cases hk
                exact ⟨mono, more, li, hd, hlast, rfl⟩
              | succ j =>
                simp only [List.get?_cons_succ] at hk
                have hmem : (rn, o) ∈ rest := List.get?_mem hk
                have hkey : rn ∈ rest.map Prod.fst :=
                  List.mem_map.mpr ⟨(rn, o), hmem, rfl⟩
                simp only [List.map_cons, List.nodup_cons] at hnd
                have hne : rn ≠ rn0 := by
                  intro he
                  exact hnd.1 (he ▸ hkey)
                obtain ⟨mono', more', li', hd', hlast', hes⟩ :=
                  ih (dictInsert iters rn0 more) (dictInsert sel rn0 frags)
                    es0 sel0 hr hnd.2 j rn o hk
                rw [dget_dictInsert_other iters rn0 rn more hne] at hd'
                exact ⟨mono', more', li', hd', hlast', hes⟩

theorem register_terms_loop_selected (lib : List (String × List Mol)) :
    ∀ (torient : List (String × building.Orient))
      (iters sel : List (String × List Mol))
      (es : List (String × Mol × Nat × building.Orient))
      (sel' : List (String × List Mol)),
      building.register_terms_loop lib torient iters sel = .ok (es, sel') →
      ∀ rn : String,
        ((∃ p ∈ torient, p.1 = rn) → dget sel' rn = dget lib rn) ∧
        ((¬∃ p ∈ torient, p.1 = rn) → dget sel' rn = dget sel rn) := by
  intro torient
  induction torient with
  | nil =>
    intro iters sel es sel' h rn
    simp only [building.register_terms_loop] at h
    injection h with h
    injection h with h1 h2
    constructor
    · rintro ⟨p, hp, -⟩
      simp at hp
    · intro _
      rw [← h2]
  | cons p rest ih =>
    intro iters sel es sel' h rn
    obtain ⟨rn0, o0⟩ := p
    simp only [building.register_terms_loop] at h
    cases hd : dget iters rn0 with
    | none =>
      simp only [hd] at h
      exact Except.noConfusion h
    | some l =>
      cases l with
      | nil =>
        simp only [hd] at h
        exact Except.noConfusion h
      | cons mono more =>
        simp only [hd] at h
        cases hlast : (building.mbmol_from_mono_rdmol mono).2.getLast? with
        | none =>
          simp only [hlast] at h
          exact Except.noConfusion h
        | some li =>
          simp only [hlast] at h
          cases hlib : dget lib rn0 with
          | none =>
            simp only [hlib] at h
            exact Except.noConfusion h
          | some frags =>
            simp only [hlib] at h
            cases hr : building.register_terms_loop lib rest
                (dictInsert iters rn0 more) (dictInsert sel rn0 frags) with
            | error e =>
              simp only [hr] at h
              exact Except.noConfusion h
            | ok pr =>
              obtain ⟨es0, sel0⟩ := pr
              simp only [hr] at h
              injection h with h
              injection h with h1 h2
              rw [← h2]
              have ihr := ih (dictInsert iters rn0 more)
                (dictInsert sel rn0 frags) es0 sel0 hr rn
              constructor
              · rintro ⟨q, hq, hrn⟩
                by_cases hmem : ∃ q ∈ rest, q.1 = rn
                · exact ihr.1 hmem
                · have hq0 : q = (rn0, o0) := by
                    cases hq with
                    | head => rfl
                    | tail _ htail => exact absurd ⟨q, htail, hrn⟩ hmem
                  have hrneq : rn0 = rn := by
                    rw [hq0] at hrn
                    exact hrn
                  subst hrneq
                  rw [ihr.2 hmem, dget_dictInsert_same sel rn0 frags, hlib]
              · intro hnone
                have hrest : ¬∃ q ∈ rest, q.1 = rn := by
                  intro ⟨q, hq, hrn⟩
                  exact hnone ⟨q, List.mem_cons_of_mem _ hq, hrn⟩
                have hne : rn ≠ rn0 := by
                  intro he
                  exact hnone ⟨(rn0, o0), List.mem_cons_self _ _, he.symm⟩
                rw [ihr.2 hrest, dget_dictInsert_other sel rn0 rn frags hne]

end Poly

namespace Poly

theorem build_ok_registration :
    ∀ (mg : building.MonomerGroup) (n : Nat) (seq : String) (aps ah em : Bool)
      (chain : building.MBPolymer),
      building.build_linear_polymer mg n seq aps ah em = .ok chain →
      ∃ middles sel ends sel',
        building.register_middles mg seq = .ok (middles, sel) ∧
        building.register_terms mg (building.determine_term_orient mg) sel =
          .ok (ends, sel') ∧
        chain.middles = middles ∧ chain.end_groups = ends ∧
        building.is_linear sel' = true := by
  intro mg n seq aps ah em chain h
  simp only [building.build_linear_polymer] at h
  split at h
  · exact Except.noConfusion h
  split at h
  · exact Except.noConfusion h
  split at h
  · exact Except.noConfusion h
  cases hm : building.register_middles mg seq with
  | error e =>
    simp only [hm] at h
    exact Except.noConfusion h
  | ok pr =>
    obtain ⟨middles, sel⟩ := pr
    simp only [hm] at h
    cases ht : building.register_terms mg (building.determine_term_orient mg)
        sel with
    | error e =>
      simp only [ht] at h
      exact Except.noConfusion h
    | ok pr2 =>
      obtain ⟨ends, sel'⟩ := pr2
      simp only [ht] at h
      cases hl : building.is_linear sel' with
      | false =>
        simp only [hl, Bool.not_false, if_true] at h
        exact Except.noConfusion h
      | true =>
        simp only [hl, Bool.not_true, if_false] at h
        injection h with h
        exact ⟨middles, sel, ends, sel', rfl, ht, by rw [← h], by rw [← h],
          hl⟩

/-- C7: middle-monomer registration binds the k-th distinct sequence
character (first-occurrence order) positionally to the k-th middle-monomer
fragment of the iteration; terminal registration binds each required
orientation to the next unused terminal fragment of the named resname; and
the monomer definitions actually used are recorded in a selection distinct
from (and drawn entry-by-entry from) the full input library, which is what
the final linearity validation inspects. -/
theorem claim_C7_monomer_registration_binding :
    (∀ (mg : building.MonomerGroup) (sequence : String)
       (ms : List (String × Mol × List Nat)) (sel : List (String × List Mol)),
      building.register_middles mg sequence = .ok (ms, sel) →
      (∀ k : Nat, ms.get? k =
        (((building.iter_rdmols mg false).zip
            (building.unique_string sequence)).get? k).map (fun it =>
          (it.1.1, building.mbmol_from_mono_rdmol it.1.2))) ∧
      (∀ rn : String,
        ((∃ it ∈ (building.iter_rdmols mg false).zip
            (building.unique_string sequence), it.1.1 = rn) →
          dget sel rn = dget mg.monomers rn) ∧
        ((¬∃ it ∈ (building.iter_rdmols mg false).zip
            (building.unique_string sequence), it.1.1 = rn) →
          dget sel rn = none))) ∧
    (∀ (lib : List (String × List Mol))
       (torient : List (String × building.Orient))
       (iters sel₀ : List (String × List Mol))
       (es : List (String × Mol × Nat × building.Orient))
       (sel' : List (String × List Mol)),
      building.register_terms_loop lib torient iters sel₀ = .ok (es, sel') →
      (torient.map Prod.fst).Nodup →
      ∀ (k : Nat) (rn : String) (o : building.Orient),
        torient.get? k = some (rn, o) →
        ∃ mono more li, dget iters rn = some (mono :: more) ∧
          (building.mbmol_from_mono_rdmol mono).2.getLast? = some li ∧
          es.get? k =
            some (rn, (building.mbmol_from_mono_rdmol mono).1, li, o)) ∧
    (∀ (mg : building.MonomerGroup) (n : Nat) (seq : String)
       (aps ah em : Bool) (chain : building.MBPolymer),
      building.build_linear_polymer mg n seq aps ah em = .ok chain →
      ∃ middles sel ends sel',
        building.register_middles mg seq = .ok (middles, sel) ∧
        building.register_terms mg (building.determine_term_orient mg) sel =
          .ok (ends, sel') ∧
        chain.middles = middles ∧ chain.end_groups = ends ∧
        building.is_linear sel' = true) := by
  refine ⟨?_, ?_, build_ok_registration⟩
  · intro mg sequence ms sel h
    refine ⟨register_middles_loop_get? mg.monomers _ _ _ _ h, ?_⟩
    intro rn
    have hsel := register_middles_loop_selected mg.monomers
      ((building.iter_rdmols mg false).zip (building.unique_string sequence))
      [] ms sel h rn
    exact ⟨hsel.1, fun hn => hsel.2 hn⟩
  · intro lib torient iters sel₀ es sel' h hnd
    exact register_terms_loop_get? lib torient iters sel₀ es sel' h hnd

/-- C7 witness: building a 10-mer "AB" chain from `mg0` registers middle
monomers A and B for the two distinct sequence characters, binds the two
terminal orientations, and validates linearity on the selected monomers. -/
theorem claim_C7_monomer_registration_binding_witness :
    ∃ chain middles sel ends sel',
      building.build_linear_polymer mg0 10 "AB" true false false =
        .ok chain ∧
      building.register_middles mg0 "AB" = .ok (middles, sel) ∧
      building.register_terms mg0 (building.determine_term_orient mg0) sel =
        .ok (ends, sel') ∧
      chain.middles = middles ∧ chain.end_groups = ends ∧
      building.is_linear sel' = true := by
  obtain ⟨chain, hchain⟩ : ∃ chain,
      building.build_linear_polymer mg0 10 "AB" true false false =
        .ok chain := ⟨_, rfl⟩
  obtain ⟨middles, sel, ends, sel', h1, h2, h3, h4, h5⟩ :=
    claim_C7_monomer_registration_binding.2.2 mg0 10 "AB" true false false
      chain hchain
  exact ⟨chain, middles, sel, ends, sel', hchain, h1, h2, h3, h4, h5⟩

end Poly

namespace Poly

theorem get?_some_lt {α : Type} {l : List α} {n : Nat} {a : α}
    (h : l.get? n = some a) : n < l.length := by
  by_contra hge
  rw [List.get?_eq_none.mpr (Nat.le_of_not_lt hge)] at h
  cases h

theorem find?_congr_fun {α : Type} (p q : α → Bool) :
    ∀ l : List α, (∀ x ∈ l, p x = q x) → l.find? p = l.find? q := by
  intro l
  induction l with
  | nil => intro _; rfl
  | cons x xs ih =>
    intro h
    have hx : p x = q x := h x (List.mem_cons_self x xs)
    simp only [List.find?]
    rw [hx]
    cases q x with
    | true => rfl
    | false =>
      exact ih (fun y hy => h y (List.mem_cons_of_mem x hy))

theorem sanitize_step_structure (t p : Mol) (e : Nat × Int × Int) (p' : Mol)
    (h : Reactor.sanitize_step t p e = .ok p') :
    ∃ idx target_bond product_bond,
      t.bonds.get? e.1 = some target_bond ∧
      bond_idx_by_map_num_pair p (e.2.1, e.2.2) = some idx ∧
      p.bonds.get? idx = some product_bond ∧
      p'.atoms = p.atoms ∧
      p'.bonds = setIdx p.bonds idx
        ({ product_bond with bondType := target_bond.bondType }) := by
  unfold Reactor.sanitize_step at h
  cases htb : t.bonds.get? e.1 with
  | none =>
    simp only [htb] at h
    exact Except.noConfusion h
  | some target_bond =>
    simp only [htb] at h
    cases hidx : bond_idx_by_map_num_pair p (e.2.1, e.2.2) with
    | none =>
      simp only [hidx] at h
      exact Except.noConfusion h
    | some idx =>
      simp only [hidx] at h
      cases hpb : p.bonds.get? idx with
      | none =>
        simp only [hpb] at h
        exact Except.noConfusion h
      | some product_bond =>
        simp only [hpb] at h
        cases ha1 : p.atoms.get? product_bond.beginAtom with
        | none =>
          simp only [ha1] at h
          exact Except.noConfusion h
        | some a1 =>
          simp only [ha1] at h
          cases ha2 : p.atoms.get? product_bond.endAtom with
          | none =>
            simp only [ha2] at h
            exact Except.noConfusion h
          | some a2 =>
            simp only [ha2] at h
            by_cases hprop : (a1.hasProp "_ReactionDegreeChanged" &&
                a2.hasProp "_ReactionDegreeChanged") = true
            · rw [if_pos hprop] at h
              injection h with h
              exact ⟨idx, target_bond, product_bond, rfl, rfl, hpb,
                by rw [← h], by rw [← h]⟩
            · rw [if_neg hprop] at h
              exact Except.noConfusion h

theorem sanitize_step_shape (t p : Mol) (e : Nat × Int × Int) (p' : Mol)
    (h : Reactor.sanitize_step t p e = .ok p') :
    p'.atoms = p.atoms ∧ p'.bonds.length = p.bonds.length ∧
      ∀ j, endpointsAt p' j = endpointsAt p j := by
  obtain ⟨idx, tb, pb, htb, hidx, hpb, hatoms, hbonds⟩ :=
    sanitize_step_structure t p e p' h
  refine ⟨hatoms, ?_, ?_⟩
  · rw [hbonds]
    exact length_setIdx p.bonds idx _
  · intro j
    unfold endpointsAt
    rw [hbonds]
    by_cases hj : idx = j
    · subst hj
      rw [get?_setIdx_self p.bonds idx _ (get?_some_lt hpb), hpb]
      rfl
    · rw [get?_setIdx_other p.bonds idx j _ hj]

theorem sanitize_fold_shape (t : Mol) :
    ∀ (es : List (Nat × Int × Int)) (p p' : Mol),
      exceptFoldlM (Reactor.sanitize_step t) p es = .ok p' →
      p'.atoms = p.atoms ∧ p'.bonds.length = p.bonds.length ∧
        ∀ j, endpointsAt p' j = endpointsAt p j := by
  intro es
  induction es with
  | nil =>
    intro p p' h
    simp only [exceptFoldlM] at h
    injection h with h
    subst h
    exact ⟨rfl, rfl, fun _ => rfl⟩
  | cons e es ih =>
    intro p p' h
    simp only [exceptFoldlM] at h
    cases hstep : Reactor.sanitize_step t p e with
    | error err =>
      rw [hstep] at h
      exact Except.noConfusion h
    | ok p1 =>
      rw [hstep] at h
      obtain ⟨ha1, hl1, he1⟩ := sanitize_step_shape t p e p1 hstep
      obtain ⟨ha2, hl2, he2⟩ := ih p1 p' h
      exact ⟨ha2.trans ha1, hl2.trans hl1,
        fun j => (he2 j).trans (he1 j)⟩

theorem bond_matches_pair_endpoints (p p' : Mol)
    (hatoms : p'.atoms = p.atoms) (b b' : Bond)
    (hbeg : b'.beginAtom = b.beginAtom) (hend : b'.endAtom = b.endAtom)
    (pr : Int × Int) : bond_matches_pair p' pr b' = bond_matches_pair p pr b := by
  unfold bond_matches_pair
  rw [hatoms, hbeg, hend]

theorem bond_matches_pair_at_shape_stable (p p' : Mol)
    (hatoms : p'.atoms = p.atoms)
    (hend : ∀ j, endpointsAt p' j = endpointsAt p j) :
    ∀ (pr : Int × Int) (j : Nat),
      bond_matches_pair_at p' pr j = bond_matches_pair_at p pr j := by
  intro pr j
  have hj := hend j
  unfold endpointsAt at hj
  unfold bond_matches_pair_at
  cases hb : p.bonds.get? j with
  | none =>
    rw [hb] at hj
    cases hb' : p'.bonds.get? j with
    | none =>
      simp only [hb, hb']
    | some b' =>
      rw [hb'] at hj
      exact Option.noConfusion hj
  | some b =>
    rw [hb] at hj
    cases hb' : p'.bonds.get? j with
    | none =>
      rw [hb'] at hj
      exact Option.noConfusion hj
    | some b' =>
      rw [hb'] at hj
      injection hj with hj
      have hbegin : b'.beginAtom = b.beginAtom := congrArg Prod.fst hj
      have hend' : b'.endAtom = b.endAtom := congrArg Prod.snd hj
      simp only [hb, hb']
      exact bond_matches_pair_endpoints p p' hatoms b b' hbegin hend' pr

theorem bond_idx_shape_stable (p p' : Mol)
    (hatoms : p'.atoms = p.atoms)
    (hlen : p'.bonds.length = p.bonds.length)
    (hend : ∀ j, endpointsAt p' j = endpointsAt p j) :
    ∀ pr : Int × Int,
      bond_idx_by_map_num_pair p' pr = bond_idx_by_map_num_pair p pr := by
  intro pr
  unfold bond_idx_by_map_num_pair
  rw [hlen]
  exact find?_congr_fun _ _ (List.range p.bonds.length)
    (fun j _ => bond_matches_pair_at_shape_stable p p' hatoms hend pr j)

theorem bond_idx_matches (m : Mol) (pr : Int × Int) (idx : Nat)
    (h : bond_idx_by_map_num_pair m pr = some idx) :
    bond_matches_pair_at m pr idx = true ∧ idx < m.bonds.length := by
  unfold bond_idx_by_map_num_pair at h
  refine ⟨List.find?_some h, ?_⟩
  have hmem := List.mem_of_find?_eq_some h
  exact List.mem_range.mp hmem

theorem bond_matches_unordEq (m : Mol) (pr qr : Int × Int) (j : Nat)
    (hp : bond_matches_pair_at m pr j = true)
    (hq : bond_matches_pair_at m qr j = true) : unordEq pr qr := by
  unfold bond_matches_pair_at at hp hq
  cases hb : m.bonds.get? j with
  | none =>
    simp only [hb] at hp
    exact Bool.noConfusion hp
  | some b =>
    simp only [hb] at hp hq
    unfold bond_matches_pair at hp hq
    cases h1 : m.atoms.get? b.beginAtom with
    | none =>
      simp only [h1] at hp
      exact Bool.noConfusion hp
    | some a1 =>
      cases h2 : m.atoms.get? b.endAtom with
      | none =>
        simp only [h1, h2] at hp
        exact Bool.noConfusion hp
      | some a2 =>
        simp only [h1, h2] at hp hq
        simp only [Bool.or_eq_true, Bool.and_eq_true, beq_iff_eq] at hp hq
        obtain ⟨pr1, pr2⟩ := pr
        obtain ⟨qr1, qr2⟩ := qr
        unfold unordEq
        simp only [Prod.mk.injEq]
        rcases hp with ⟨hp1, hp2⟩ | ⟨hp1, hp2⟩ <;>
          rcases hq with ⟨hq1, hq2⟩ | ⟨hq1, hq2⟩ <;>
          simp only at hp1 hp2 hq1 hq2 <;> omega
end Poly

namespace Poly

theorem sanitize_fold_preserves (t : Mol) :
    ∀ (es : List (Nat × Int × Int)) (p p' : Mol) (idx : Nat) (b : Bond),
      exceptFoldlM (Reactor.sanitize_step t) p es = .ok p' →
      p.bonds.get? idx = some b →
      (∀ e ∈ es, bond_matches_pair_at p (e.2.1, e.2.2) idx = false) →
      p'.bonds.get? idx = some b := by
  intro es
  induction es with
  | nil =>
    intro p p' idx b h hb _
    simp only [exceptFoldlM] at h
    injection h with h
    rw [← h]
    exact hb
  | cons e es ih =>
    intro p p' idx b h hb hmatch
    simp only [exceptFoldlM] at h
    cases hstep : Reactor.sanitize_step t p e with
    | error err =>
      rw [hstep] at h
      exact Except.noConfusion h
    | ok p1 =>
      rw [hstep] at h
      obtain ⟨idxe, tb, pb, htb, hidx, hpb, hatoms, hbonds⟩ :=
        sanitize_step_structure t p e p1 hstep
      have hme : bond_matches_pair_at p (e.2.1, e.2.2) idxe = true :=
        (bond_idx_matches p _ idxe hidx).1
      have hne : idxe ≠ idx := by
        intro heq
        rw [heq, hmatch e (List.mem_cons_self e es)] at hme
        exact Bool.noConfusion hme
      have hb1 : p1.bonds.get? idx = some b := by
        rw [hbonds, get?_setIdx_other p.bonds idxe idx _ hne]
        exact hb
      have hshape := sanitize_step_shape t p e p1 hstep
      have hmatch1 : ∀ e' ∈ es,
          bond_matches_pair_at p1 (e'.2.1, e'.2.2) idx = false := by
        intro e' he'
        rw [bond_matches_pair_at_shape_stable p p1 hshape.1 hshape.2.2 _ idx]
        exact hmatch e' (List.mem_cons_of_mem e he')
      exact ih p1 p' idx b h hb1 hmatch1

theorem sanitize_fold_mod_bonds (t : Mol) :
    ∀ (es : List (Nat × Int × Int)) (p p' : Mol),
      exceptFoldlM (Reactor.sanitize_step t) p es = .ok p' →
      List.Pairwise
        (fun e1 e2 => ¬unordEq (e1.2.1, e1.2.2) (e2.2.1, e2.2.2)) es →
      ∀ e ∈ es, ∃ tb idx pb,
        t.bonds.get? e.1 = some tb ∧
        bond_idx_by_map_num_pair p' (e.2.1, e.2.2) = some idx ∧
        p'.bonds.get? idx = some pb ∧
        pb.bondType = tb.bondType := by
  intro es
  induction es with
  | nil =>
    intro p p' h hpw e he
    simp at he
  | cons e0 es ih =>
    intro p p' h hpw e he
    simp only [exceptFoldlM] at h
    cases hstep : Reactor.sanitize_step t p e0 with
    | error err =>
      rw [hstep] at h
      exact Except.noConfusion h
    | ok p1 =>
      rw [hstep] at h
      rw [List.pairwise_cons] at hpw
      cases he with
      | tail _ hes => exact ih p1 p' h hpw.2 e hes
      | head =>
        obtain ⟨idxe, tb, pb, htb, hidx, hpb, hatoms, hbonds⟩ :=
          sanitize_step_structure t p e0 p1 hstep
        have hshape1 := sanitize_step_shape t p e0 p1 hstep
        have hshapef := sanitize_fold_shape t es p1 p' h
        have hidx1 : bond_idx_by_map_num_pair p1 (e0.2.1, e0.2.2) =
            some idxe := by
          rw [bond_idx_shape_stable p p1 hshape1.1 hshape1.2.1 hshape1.2.2]
          exact hidx
        have hidxf : bond_idx_by_map_num_pair p' (e0.2.1, e0.2.2) =
            some idxe := by
          rw [bond_idx_shape_stable p1 p' hshapef.1 hshapef.2.1 hshapef.2.2]
          exact hidx1
        have hlt : idxe < p.bonds.length := (bond_idx_matches p _ idxe hidx).2
        have hb1 : p1.bonds.get? idxe =
            some ({ pb with bondType := tb.bondType }) := by
          rw [hbonds]
          exact get?_setIdx_self p.bonds idxe _ hlt
        have hme : bond_matches_pair_at p (e0.2.1, e0.2.2) idxe = true :=
          (bond_idx_matches p _ idxe hidx).1
        have hme1 : bond_matches_pair_at p1 (e0.2.1, e0.2.2) idxe = true := by
          rw [bond_matches_pair_at_shape_stable p p1 hshape1.1 hshape1.2.2]
          exact hme
        have hmatch1 : ∀ e' ∈ es,
            bond_matches_pair_at p1 (e'.2.1, e'.2.2) idxe = false := by
          intro e' he'
          by_contra hcon
          rw [Bool.not_eq_false] at hcon
          exact (hpw.1 e' he')
            (bond_matches_unordEq p1 (e0.2.1, e0.2.2) (e'.2.1, e'.2.2) idxe
              hme1 hcon)
        have hbf := sanitize_fold_preserves t es p1 p' idxe _ h hb1 hmatch1
        exact ⟨tb, idxe, _, htb, hidxf, hbf, rfl⟩

theorem enumFrom_get? {α : Type} :
    ∀ (l : List α) (n i : Nat),
      (List.enumFrom n l).get? i = (l.get? i).map (fun a => (n + i, a)) := by
  intro l
  induction l with
  | nil =>
    intro n i
    simp [List.enumFrom]
  | cons x xs ih =>
    intro n i
    cases i with
    | zero => simp [List.enumFrom]
    | succ j =>
      simp only [List.enumFrom, List.get?_cons_succ]
      rw [ih (n + 1) j]
      have harith : n + 1 + j = n + (j + 1) := by omega
      rw [harith]

theorem enum_get? {α : Type} (l : List α) (i : Nat) :
    l.enum.get? i = (l.get? i).map (fun a => (i, a)) := by
  show (List.enumFrom 0 l).get? i = _
  rw [enumFrom_get? l 0 i]
  simp

theorem bond_matches_pair_clear (m : Mol) (pr : Int × Int) (b : Bond) :
    bond_matches_pair (clear_atom_props m) pr b = bond_matches_pair m pr b := by
  unfold bond_matches_pair clear_atom_props
  rw [List.get?_map, List.get?_map]
  cases m.atoms.get? b.beginAtom <;> cases m.atoms.get? b.endAtom <;> simp

theorem bond_matches_pair_at_clear (m : Mol) (pr : Int × Int) (j : Nat) :
    bond_matches_pair_at (clear_atom_props m) pr j =
      bond_matches_pair_at m pr j := by
  show (match m.bonds.get? j with
    | some b => bond_matches_pair (clear_atom_props m) pr b
    | none => false) = bond_matches_pair_at m pr j
  unfold bond_matches_pair_at
  cases hb : m.bonds.get? j with
  | none => rfl
  | some b =>
    simp only
    exact bond_matches_pair_clear m pr b

theorem bond_idx_clear (m : Mol) (pr : Int × Int) :
    bond_idx_by_map_num_pair (clear_atom_props m) pr =
      bond_idx_by_map_num_pair m pr := by
  show (List.range m.bonds.length).find?
      (fun i => bond_matches_pair_at (clear_atom_props m) pr i) = _
  unfold bond_idx_by_map_num_pair
  exact find?_congr_fun _ _ (List.range m.bonds.length)
    (fun j _ => bond_matches_pair_at_clear m pr j)

end Poly

namespace Poly

/-- C2: after a successful `Reactor.react`, for every bond the schema flags as
bond-order-changing (provided the flagged map-number pairs are pairwise
distinct up to endpoint swap, as they are for distinct bonds of a molecule),
the product bond located by its endpoint map-number pair carries exactly the
bond type declared by the schema's product template, regardless of what the
raw transformation produced. -/
theorem claim_C2_bond_orders_forced_to_schema_types :
    ∀ (schema : AnnotatedReaction) (reactants : List Mol) (reps : Nat)
      (cp : Bool) (st : List Mol) (products : List Mol) (i : Nat) (prod : Mol)
      (tmpl : Mol) (info : RxnProductInfo),
      Reactor.react schema reactants reps cp = (st, .ok products) →
      products.get? i = some prod →
      schema.productTemplates.get? i = some tmpl →
      schema.product_info_maps.get? i = some info →
      List.Pairwise
        (fun e1 e2 => ¬unordEq (e1.2.1, e1.2.2) (e2.2.1, e2.2.2))
        info.mod_bond_ids_to_map_nums →
      ∀ e ∈ info.mod_bond_ids_to_map_nums,
        ∃ tb idx pb,
          tmpl.bonds.get? e.1 = some tb ∧
          bond_idx_by_map_num_pair prod (e.2.1, e.2.2) = some idx ∧
          prod.bonds.get? idx = some pb ∧
          pb.bondType = tb.bondType := by
  intro schema reactants reps cp st products i prod tmpl info hreact hgot htm
    hpi hpw e he
  have hpost : Reactor.react_post_label schema
      (Reactor.label_reactants reactants) reps cp = .ok products := by
    have h2 : (Reactor.react schema reactants reps cp).2 = .ok products := by
      rw [hreact]
    exact h2
  unfold Reactor.react_post_label at hpost
  cases hrun : schema.RunReactants (Reactor.label_reactants reactants) reps with
  | error e2 =>
    rw [hrun] at hpost
    exact Except.noConfusion hpost
  | ok raw =>
    rw [hrun] at hpost
    obtain ⟨entry, hentry, hclean⟩ := exceptMapM_ok_get? _ _ _ hpost i prod hgot
    rw [enum_get? raw.flatten i] at hentry
    cases hfl : raw.flatten.get? i with
    | none =>
      rw [hfl] at hentry
      exact Option.noConfusion hentry
    | some rawp =>
      rw [hfl] at hentry
      injection hentry with hentry
      rw [← hentry] at hclean
      unfold Reactor.cleanup_product at hclean
      cases hrel : Reactor.relabel_reacted_atoms rawp
          schema.map_nums_to_reactant_nums with
      | error e2 =>
        simp only [hrel] at hclean
        exact Except.noConfusion hclean
      | ok p1 =>
        simp only [hrel] at hclean
        simp only [htm, hpi] at hclean
        cases hsan : Reactor.sanitize_bond_orders p1 tmpl info with
        | error e2 =>
          simp only [hsan] at hclean
          exact Except.noConfusion hclean
        | ok p2 =>
          simp only [hsan] at hclean
          injection hclean with hclean
          have hmain := sanitize_fold_mod_bonds tmpl
            info.mod_bond_ids_to_map_nums p1 p2 hsan hpw e he
          obtain ⟨tb, idx, pb, htb, hidxp, hbp, hty⟩ := hmain
          cases cp with
          | false =>
            rw [← hclean]
            exact ⟨tb, idx, pb, htb, hidxp, hbp, hty⟩
          | true =>
            rw [← hclean]
            refine ⟨tb, idx, pb, htb, ?_, ?_, hty⟩
            · show bond_idx_by_map_num_pair (clear_atom_props p2)
                (e.2.1, e.2.2) = some idx
              rw [bond_idx_clear p2 (e.2.1, e.2.2)]
              exact hidxp
            · show (clear_atom_props p2).bonds.get? idx = some pb
              exact hbp

/-- C2 witness: running `schemaC2` on two copies of `rC2` yields a product
whose (map-pair (1,2)) bond has been forced from single to the template's
double-bond type. -/
theorem claim_C2_bond_orders_forced_to_schema_types_witness :
    ∃ tb idx pb,
      tmplC2.bonds.get? 0 = some tb ∧
      bond_idx_by_map_num_pair prodC2 (1, 2) = some idx ∧
      prodC2.bonds.get? idx = some pb ∧
      pb.bondType = tb.bondType :=
  claim_C2_bond_orders_forced_to_schema_types schemaC2 [rC2, rC2] 1 false
    labeledC2 [prodC2] 0 prodC2 tmplC2 ⟨[(0,(1,2))],[]⟩ rfl rfl rfl rfl
    (by simp) (0, (1, 2)) (by decide)

end Poly
